import Mathlib

/-!
# Receipt processor: validation, scoring and the in-memory store

A shallow embedding of `receipt/receipt_service.go`, `receipt/db/db.go`,
`receipt/model/receipt.go` and `receipt/handler.go`, together with the parts
of the Go runtime and standard library those files rely on (`int64`
arithmetic, `float64` arithmetic, `time.Parse`, `strings.TrimSpace`,
`unicode.IsLetter`).

Conventions of the embedding.

* A Go `string` is a Lean `String`.  The strings of a receipt come out of the
  JSON decoder and are valid UTF-8; every byte test the code performs is a test
  against an ASCII byte, which in UTF-8 only occurs as a one-byte character,
  so tests on characters agree with the tests on bytes.
* A finite `float64` is the rational number it denotes (`Float64 := ℚ`);
  `IsFloat64 q` says that `q` is such a number.  The JSON decoder only yields
  finite values, and no operation of the program leaves the finite values.
* `int` and `int64` are `Int` with an explicit `wrap64` at every arithmetic
  operation (`int` is 64 bits wide on the platforms the server is built for).
* A Go result `(T, error)` is `Except String T`, the string being the error
  message; the placeholder value (`-1`, `nil`) that accompanies a non-nil error
  is dropped.
* What Go leaves to the implementation or to large library tables is a field
  of `GoEnv`; the theorems hold for every `GoEnv`, and `sampleEnv` is only
  used to evaluate the model on sample data.
* `uuid.New()` is an argument of the functions that call it: the theorems hold
  for every identifier it may draw.
-/

namespace ReceiptProcessor

/-! ## Machine integers -/

/-- Two's complement wrap-around of an integer into the `int64` range. -/
def wrap64 (x : Int) : Int := (x + 2 ^ 63) % 2 ^ 64 - 2 ^ 63

/-- The predicate of lying in the `int64` range. -/
def InInt64 (x : Int) : Prop := -(2 ^ 63) ≤ x ∧ x < 2 ^ 63

instance (x : Int) : Decidable (InInt64 x) := by unfold InInt64; infer_instance

/-- Go `a + b` on `int64` (and on `int`). -/
def add64 (a b : Int) : Int := wrap64 (a + b)

/-- Go `a * b` on `int64`. -/
def mul64 (a b : Int) : Int := wrap64 (a * b)

/-! ## Floating point -/

/-- A finite `float64`, modelled by the rational number it denotes. -/
abbrev Float64 := ℚ

/-- Rounding of a rational to the nearest integer, ties to the even one. -/
def roundHalfEven (x : ℚ) : Int :=
  let f := ⌊x⌋
  if x - f < 1 / 2 then f
  else if 1 / 2 < x - f then f + 1
  else if f % 2 = 0 then f else f + 1

/-- Number of binary digits of a natural number (the first argument is fuel). -/
def bitLength : Nat → Nat → Nat
  | 0, _ => 0
  | fuel + 1, n => if n = 0 then 0 else bitLength fuel (n / 2) + 1

/-- The binary exponent `e` of a non-zero rational: `2 ^ e ≤ |q| < 2 ^ (e + 1)`. -/
def binadeExp (q : ℚ) : Int :=
  let k : Int := (bitLength q.num.natAbs q.num.natAbs : Int) - (bitLength q.den q.den : Int)
  if (2 : ℚ) ^ k ≤ |q| then k else k - 1

/-- IEEE 754 round-to-nearest-even into binary64: in the binade of exponent
`e` the representable numbers are the multiples of `2 ^ (e - 52)`, and below
`2 ^ (-1022)` (subnormal numbers) the multiples of `2 ^ (-1074)`.  Overflow to
infinity is not modelled: the program only rounds `price * 0.2`, which is
smaller in magnitude than `price`, and integers of the `int64` range. -/
def roundFloat64 (q : ℚ) : Float64 :=
  if q = 0 then 0
  else
    let e := max (binadeExp q) (-1022)
    let ulp : ℚ := (2 : ℚ) ^ (e - 52)
    (roundHalfEven (q / ulp) : ℚ) * ulp

/-- The rationals that are finite `float64` values: those rounding leaves
unchanged, below the overflow threshold. -/
def IsFloat64 (q : ℚ) : Prop := roundFloat64 q = q ∧ |q| < 2 ^ 1024

instance (q : ℚ) : Decidable (IsFloat64 q) := by unfold IsFloat64; infer_instance

/-- The `float64` a decimal literal or a decimal string of the JSON input denotes. -/
def float64OfDecimal (q : ℚ) : Float64 := roundFloat64 q

/-- Go `x * y` on `float64`. -/
def fmul (x y : Float64) : Float64 := roundFloat64 (x * y)

/-- Truncation toward zero. -/
def truncQ (q : ℚ) : Int := if 0 ≤ q then ⌊q⌋ else ⌈q⌉

/-- Go `math.Mod(x, y)` for finite `x` and non-zero `y`: `x - n * y` with `n`
the quotient truncated toward zero; the result is exact. -/
def mathMod (x y : Float64) : Float64 := x - (truncQ (x / y) : ℚ) * y

/-- Go `math.Ceil`. -/
def mathCeil (x : Float64) : Float64 := ((⌈x⌉ : Int) : ℚ)

/-- What the Go specification leaves open, and the library tables that are
not reproduced here. -/
structure GoEnv where
  /-- The result of converting to `int64` (or `int`) a `float64` whose
  truncation does not fit: Go calls it implementation-dependent. -/
  floatToIntOverflow : Float64 → Int
  /-- `unicode.IsLetter` on the runes above U+00FF (table `unicode.Letter`). -/
  isLetterExcludingLatin : Char → Bool

/-- Go `int64(f)` and `int(f)`: truncation toward zero when the result fits,
some `int64` chosen by the implementation otherwise. -/
def floatToInt64 (env : GoEnv) (f : Float64) : Int :=
  if InInt64 (truncQ f) then truncQ f else wrap64 (env.floatToIntOverflow f)

/-- Go `float64(n)` for an `int64` (or `int`) `n`: the nearest `float64`. -/
def int64ToFloat (n : Int) : Float64 := roundFloat64 (n : ℚ)

/-- The conversion of amd64: every out-of-range conversion gives `-2^63`. -/
def amd64Overflow (_ : Float64) : Int := -(2 ^ 63)

/-- The conversion of arm64: out-of-range values saturate. -/
def arm64Overflow (f : Float64) : Int := if 0 ≤ f then 2 ^ 63 - 1 else -(2 ^ 63)

/-! ## Strings -/

/-- Go `unicode.IsSpace`: the Latin-1 switch, then table `unicode.White_Space`. -/
def isSpace (c : Char) : Bool :=
  let r := c.toNat
  if r ≤ 0xFF then
    r = 0x09 ∨ r = 0x0A ∨ r = 0x0B ∨ r = 0x0C ∨ r = 0x0D ∨ r = 0x20 ∨ r = 0x85 ∨ r = 0xA0
  else
    r = 0x1680 ∨ (0x2000 ≤ r ∧ r ≤ 0x200A) ∨ r = 0x2028 ∨ r = 0x2029 ∨ r = 0x202F
      ∨ r = 0x205F ∨ r = 0x3000

/-- Go `strings.TrimSpace`: drop the leading and the trailing white space. -/
def trimSpace (s : String) : String :=
  String.mk ((s.data.dropWhile isSpace).reverse.dropWhile isSpace).reverse

/-- Go `len(s)`: the number of bytes of the UTF-8 encoding. -/
def goLen (s : String) : Nat := s.utf8ByteSize

/-- The letters among the Latin-1 runes (Go `unicode.properties`, mask `pLmask`). -/
def isLetterLatin1 (c : Char) : Bool :=
  let r := c.toNat
  (0x41 ≤ r ∧ r ≤ 0x5A) ∨ (0x61 ≤ r ∧ r ≤ 0x7A) ∨ r = 0xAA ∨ r = 0xB5 ∨ r = 0xBA
    ∨ (0xC0 ≤ r ∧ r ≤ 0xD6) ∨ (0xD8 ≤ r ∧ r ≤ 0xF6) ∨ (0xF8 ≤ r ∧ r ≤ 0xFF)

/-- Go `unicode.IsLetter`. -/
def isLetter (env : GoEnv) (c : Char) : Bool :=
  if c.toNat ≤ 0xFF then isLetterLatin1 c else env.isLetterExcludingLatin c

/-! ## `time.Parse` for the layouts `2006-01-02` and `15:04` -/

/-- The fields of a `time.Time` the program can observe (seconds are always 0, UTC). -/
structure GoTime where
  year : Nat
  month : Nat
  day : Nat
  hour : Nat
  min : Nat
  deriving DecidableEq, Repr

/-- The zero `time.Time`, January 1 of year 1, 00:00. -/
def GoTime.zero : GoTime := ⟨1, 1, 1, 0, 0⟩

/-- Position of an instant on the time line, up to a monotone renumbering. -/
def GoTime.instant (t : GoTime) : Nat :=
  (((t.year * 13 + t.month) * 32 + t.day) * 24 + t.hour) * 60 + t.min

/-- Go `t.After(u)`. -/
def GoTime.After (t u : GoTime) : Bool := decide (u.instant < t.instant)

/-- Go `t.Before(u)`. -/
def GoTime.Before (t u : GoTime) : Bool := decide (t.instant < u.instant)

/-- Go `t.Day()`. -/
def GoTime.Day (t : GoTime) : Nat := t.day

/-- Go `time.isDigit`, on one character. -/
def isDigit (c : Char) : Bool := decide ('0'.toNat ≤ c.toNat ∧ c.toNat ≤ '9'.toNat)

/-- Value of a decimal digit. -/
def digitVal (c : Char) : Nat := c.toNat - '0'.toNat

/-- Go `time.getnum`: one or two digits, exactly two when `fixed`. -/
def getnum (s : List Char) (fixed : Bool) : Option (Nat × List Char) :=
  match s with
  | [] => none
  | c0 :: rest =>
    if !isDigit c0 then none
    else
      match rest with
      | [] => if fixed then none else some (digitVal c0, rest)
      | c1 :: rest2 =>
        if !isDigit c1 then (if fixed then none else some (digitVal c0, rest))
        else some (digitVal c0 * 10 + digitVal c1, rest2)

/-- Go `time.skip` for a one-character literal prefix other than a space. -/
def skipChar (value : List Char) (c : Char) : Option (List Char) :=
  match value with
  | [] => none
  | v :: rest => if v = c then some rest else none

/-- Go `time.isLeap`. -/
def isLeap (year : Nat) : Bool := decide (year % 4 = 0 ∧ (year % 100 ≠ 0 ∨ year % 400 = 0))

/-- Go `time.daysIn`. -/
def daysIn (month year : Nat) : Nat :=
  if month = 2 then (if isLeap year then 29 else 28)
  else if month = 4 ∨ month = 6 ∨ month = 9 ∨ month = 11 then 30
  else 31

/-- The chunk `2006` of a layout: four characters, all of them digits. -/
def getLongYear (value : List Char) : Option (Nat × List Char) :=
  match value with
  | a :: b :: c :: d :: rest =>
    if isDigit a && isDigit b && isDigit c && isDigit d then
      some (digitVal a * 1000 + digitVal b * 100 + digitVal c * 10 + digitVal d, rest)
    else none
  | _ => none

/-- Go `time.Parse("2006-01-02", value)`; `none` stands for a non-nil error. -/
def parseDate (value : String) : Option GoTime :=
  match getLongYear value.data with
  | none => none
  | some (year, v) =>
    match skipChar v '-' with
    | none => none
    | some v =>
      match getnum v true with
      | none => none
      | some (month, v) =>
        if month = 0 ∨ 12 < month then none
        else
          match skipChar v '-' with
          | none => none
          | some v =>
            match getnum v true with
            | none => none
            | some (day, v) =>
              if v ≠ [] then none
              else if day < 1 ∨ daysIn month year < day then none
              else some ⟨year, month, day, 0, 0⟩

/-- Go `time.Parse("15:04", value)`; `none` stands for a non-nil error.  The
date fields take their defaults, January 1 of year 0. -/
def parseTime (value : String) : Option GoTime :=
  match getnum value.data false with
  | none => none
  | some (hour, v) =>
    if 24 ≤ hour then none
    else
      match skipChar v ':' with
      | none => none
      | some v =>
        match getnum v true with
        | none => none
        | some (min, v) =>
          if 60 ≤ min then none
          else if v ≠ [] then none
          else some ⟨0, 1, 1, hour, min⟩

/-! ## Data model (`receipt/model/receipt.go`) -/

/-- Go `model.Item`. -/
structure Item where
  ShortDescription : String
  Price : Float64
  deriving DecidableEq

/-- Go `model.Receipt`. -/
structure Receipt where
  Retailer : String
  PurchaseDate : String
  PurchaseTime : String
  Items : List Item
  Total : Float64
  deriving DecidableEq

/-! ## Scoring and validation (`receipt/receipt_service.go`) -/

/-- Go `countAlphanNumericCharacters`: the loop `for _, c := range s`. -/
def countAlphanNumericCharacters (env : GoEnv) (s : String) : Int :=
  s.data.foldl (fun count c => if isLetter env c then add64 count 1 else count) 0

/-- The body of the loop over `receipt.Items` in `calculatePointsFromReceipt`:
the new value of `pointsByDescription` after one item. -/
def descriptionStep (env : GoEnv) (pointsByDescription : Int) (item : Item) : Int :=
  let descriptionLength := goLen (trimSpace item.ShortDescription)
  if descriptionLength ≠ 0 ∧ descriptionLength % 3 = 0 then
    add64 pointsByDescription
      (floatToInt64 env (mathCeil (fmul item.Price (float64OfDecimal (1 / 5)))))
  else pointsByDescription

/-- The value of `pointsByDescription` after the loop over `receipt.Items`. -/
def pointsByDescription (env : GoEnv) (items : List Item) : Int :=
  items.foldl (descriptionStep env) 0

/-- The instant `startTime` of `calculatePointsFromReceipt`, 2 p.m. -/
def startTime : GoTime := (parseTime "14:00").getD GoTime.zero

/-- The instant `endTime` of `calculatePointsFromReceipt`, 4 p.m. -/
def endTime : GoTime := (parseTime "16:00").getD GoTime.zero

/-- Go `calculatePointsFromReceipt`. -/
def calculatePointsFromReceipt (env : GoEnv) (receipt : Receipt) : Except String Int :=
  let points : Int := 0
  -- calculate retailer number of characters
  let points := add64 points (countAlphanNumericCharacters env receipt.Retailer)
  -- 50 points if the total is a round dollar amount with no cents
  let points :=
    if floatToInt64 env receipt.Total ≠ 0
        ∧ int64ToFloat (floatToInt64 env receipt.Total) = receipt.Total then
      add64 points 50
    else points
  -- 25 points if the total is a multiple of 0.25
  let points :=
    if floatToInt64 env receipt.Total ≠ 0 ∧ mathMod receipt.Total (1 / 4) = 0 then
      add64 points 25
    else points
  -- 5 points for every two items on the receipt
  let points := add64 points (mul64 ((receipt.Items.length / 2 : Nat) : Int) 5)
  -- the price times 0.2, rounded up, if the description length is a multiple of 3
  let points := add64 points (pointsByDescription env receipt.Items)
  -- 6 points if the day in the purchase date is odd
  match parseDate receipt.PurchaseDate with
  | none => .error "cannot parse date to number"
  | some parsedDate =>
    let points := if parsedDate.Day % 2 ≠ 0 then add64 points 6 else points
    -- 10 points if the time of purchase is after 2:00pm and before 4:00pm
    match parseTime receipt.PurchaseTime with
    | none => .error "invalid time format"
    | some receiptTime =>
      let points :=
        if receiptTime.After startTime && receiptTime.Before endTime then add64 points 10
        else points
      .ok points

/-- Go `validateReceipt`; `.ok ()` stands for the `nil` error. -/
def validateReceipt (receipt : Receipt) : Except String Unit :=
  match parseDate receipt.PurchaseDate with
  | none => .error "invalid purchase date format"
  | some _ =>
    match parseTime receipt.PurchaseTime with
    | none => .error "invalid purchase time format"
    | some _ =>
      if receipt.Total < 0 then .error "invalid total price"
      else if receipt.Items.length = 0 then .error "items can not be empty"
      else .ok ()

/-! ## The in-memory store (`receipt/db/db.go`) -/

/-- A `uuid.UUID`, sixteen bytes. -/
abbrev UUID := Fin (2 ^ 128)

/-- Go `db.DBHandler`: the map `receiptStoreMap`.  The Go map holds pointers
to receipts; no code of the repository writes to a receipt after it is saved,
so the map is modelled as holding the receipts themselves. -/
structure DBHandler where
  receiptStoreMap : UUID → Option Receipt

/-- Go `db.InitDB`. -/
def InitDB : DBHandler := ⟨fun _ => none⟩

/-- Go `DBHandler.SaveReceipt`.  The identifier `uuid.New()` draws is the
argument `newUUuid`; the result is the store afterwards and the return value. -/
def DBHandler.SaveReceipt (db : DBHandler) (newUUuid : UUID) (receipt : Receipt) :
    DBHandler × Except String UUID :=
  (⟨fun id => if id = newUUuid then some receipt else db.receiptStoreMap id⟩, .ok newUUuid)

/-- Go `DBHandler.ReadReceipt`. -/
def DBHandler.ReadReceipt (db : DBHandler) (id : UUID) : Except String Receipt :=
  match db.receiptStoreMap id with
  | none => .error "cannot find receipt with this ID"
  | some foundReceipt => .ok foundReceipt

/-! ## The service (`receipt/receipt_service.go`) -/

/-- Go `ReceiptService`, with the store `main.go` gives it. -/
structure ReceiptService where
  receiptStore : DBHandler

/-- Go `ReceiptService.ProcessReceipt`: the service afterwards and the return value. -/
def ReceiptService.ProcessReceipt (s : ReceiptService) (newUUuid : UUID) (receipt : Receipt) :
    ReceiptService × Except String UUID :=
  match validateReceipt receipt with
  | .error err => (s, .error ("invalid receipt data:  " ++ err))
  | .ok _ =>
    let (store, res) := s.receiptStore.SaveReceipt newUUuid receipt
    (⟨store⟩, res)

/-- Go `ReceiptService.GetReceipt`. -/
def ReceiptService.GetReceipt (s : ReceiptService) (receiptId : UUID) : Except String Receipt :=
  s.receiptStore.ReadReceipt receiptId

/-- Go `ReceiptService.CalculatePoints`. -/
def ReceiptService.CalculatePoints (env : GoEnv) (s : ReceiptService) (receiptId : UUID) :
    Except String Int :=
  match s.receiptStore.ReadReceipt receiptId with
  | .error err => .error err
  | .ok receipt =>
    match calculatePointsFromReceipt env receipt with
    | .error err => .error err
    | .ok points => .ok points

/-! ## Stages of `calculatePointsFromReceipt`, used to state the theorems -/

/-- The two rules on `receipt.Total` (lines 77 to 86), as a function of the
value of `points` before them. -/
def totalRules (env : GoEnv) (total : Float64) (points : Int) : Int :=
  let points :=
    if floatToInt64 env total ≠ 0 ∧ int64ToFloat (floatToInt64 env total) = total then
      add64 points 50
    else points
  if floatToInt64 env total ≠ 0 ∧ mathMod total (1 / 4) = 0 then add64 points 25 else points

/-- The value of `points` when control reaches the date rule (line 102).  It
is computed from the retailer, the total and the items only. -/
def pointsBeforeDate (env : GoEnv) (retailer : String) (total : Float64) (items : List Item) :
    Int :=
  add64
    (add64 (totalRules env total (add64 0 (countAlphanNumericCharacters env retailer)))
      (mul64 ((items.length / 2 : Nat) : Int) 5))
    (pointsByDescription env items)

/-- The date rule (lines 107 to 109), as a function of `points` before it. -/
def dateRule (parsedDate : GoTime) (points : Int) : Int :=
  if parsedDate.Day % 2 ≠ 0 then add64 points 6 else points

/-- The time rule (lines 119 to 121), as a function of `points` before it. -/
def timeRule (receiptTime : GoTime) (points : Int) : Int :=
  if receiptTime.After startTime && receiptTime.Before endTime then add64 points 10 else points

/-- What the two rules on the total add: 50 for rule 2 and 25 for rule 3, each
under the test the code makes. -/
def totalBonus (env : GoEnv) (total : Float64) : Int :=
  (if floatToInt64 env total ≠ 0 ∧ int64ToFloat (floatToInt64 env total) = total then 50 else 0)
    + (if floatToInt64 env total ≠ 0 ∧ mathMod total (1 / 4) = 0 then 25 else 0)

/-- What the date rule adds. -/
def dayBonus (parsedDate : GoTime) : Int := if parsedDate.Day % 2 ≠ 0 then 6 else 0

/-- What the time rule adds. -/
def timeBonus (receiptTime : GoTime) : Int :=
  if receiptTime.After startTime && receiptTime.Before endTime then 10 else 0

/-- The test the loop over the items makes on a description. -/
def descriptionCounts (item : Item) : Prop :=
  goLen (trimSpace item.ShortDescription) ≠ 0 ∧ goLen (trimSpace item.ShortDescription) % 3 = 0

instance (item : Item) : Decidable (descriptionCounts item) := by
  unfold descriptionCounts; infer_instance

/-- The integer `math.Ceil(item.Price * 0.2)` for an item the loop counts, 0
for another item: what the item adds when no conversion or sum overflows. -/
def itemBonus (item : Item) : Int :=
  if descriptionCounts item then ⌈fmul item.Price (float64OfDecimal (1 / 5))⌉ else 0

/-- The `int` the loop over the items adds for an item:
`int(math.Ceil(item.Price * 0.2))` for an item it counts, 0 for another. -/
def itemPoints (env : GoEnv) (item : Item) : Int :=
  if descriptionCounts item then
    floatToInt64 env (mathCeil (fmul item.Price (float64OfDecimal (1 / 5))))
  else 0

/-- The service after a sequence of calls of `ProcessReceipt`, each given with
the identifier `uuid.New()` draws during it, and the identifiers the calls
returned. -/
def ReceiptService.serve (s : ReceiptService) :
    List (UUID × Receipt) → ReceiptService × List UUID
  | [] => (s, [])
  | (newUUuid, receipt) :: calls =>
    match s.ProcessReceipt newUUuid receipt with
    | (s', .ok id) => ((s'.serve calls).1, id :: (s'.serve calls).2)
    | (s', .error _) => s'.serve calls

/-! ## The HTTP handlers (`receipt/handler.go`) -/

/-- Go `http.StatusOK`. -/
def StatusOK : Nat := 200

/-- Go `http.StatusBadRequest`. -/
def StatusBadRequest : Nat := 400

/-- Go `http.StatusInternalServerError`. -/
def StatusInternalServerError : Nat := 500

/-- The `gin.H` values the handlers pass to `c.JSON`.  In `id` the value is a
`*uuid.UUID`, and `none` stands for `nil`. -/
inductive ResponseBody where
  | message (message : String)
  | id (id : Option UUID)
  | points (message : String) (points : Int)
  deriving DecidableEq

/-- A call `c.JSON(code, obj)`. -/
structure JSONCall where
  code : Nat
  obj : ResponseBody
  deriving DecidableEq

/-- Go `RouteHandler`. -/
structure RouteHandler where
  receiptService : ReceiptService

/-- Go `RouteHandler.ProcessReceipt`: the handler afterwards and the calls of
`c.JSON` it makes, in order.  The argument `bound` is the outcome of
`c.BindJSON(&receiptInput)`: the error, or the receipt the body was parsed to.
After the call of `c.JSON` for an error of the service there is no `return`,
so the call for the success follows, with the `nil` identifier.  A body that
is the JSON `null` binds to a `nil` receipt, on which the handler panics; the
model has the bound receipts only. -/
def RouteHandler.ProcessReceipt (rh : RouteHandler) (newUUuid : UUID)
    (bound : Except String Receipt) : RouteHandler × List JSONCall :=
  match bound with
  | .error err => (rh, [⟨StatusBadRequest, .message err⟩])
  | .ok receiptInput =>
    match rh.receiptService.ProcessReceipt newUUuid receiptInput with
    | (service, .error _) =>
      (⟨service⟩,
        [⟨StatusInternalServerError, .message "error processing receipt"⟩,
          ⟨StatusOK, .id none⟩])
    | (service, .ok uuid) => (⟨service⟩, [⟨StatusOK, .id (some uuid)⟩])

/-- Go `RouteHandler.GetReceiptPoints`: the calls of `c.JSON` it makes.  The
argument `parsed` is the outcome of `uuid.Parse(c.Param("id"))`. -/
def RouteHandler.GetReceiptPoints (env : GoEnv) (rh : RouteHandler) (parsed : Option UUID) :
    List JSONCall :=
  match parsed with
  | none => [⟨StatusBadRequest, .message "Unable to parse id to uuid"⟩]
  | some id =>
    match rh.receiptService.CalculatePoints env id with
    | .error err => [⟨StatusInternalServerError, .message err⟩]
    | .ok points => [⟨StatusOK, .points "Quotes retrieved successfully" points⟩]

/-- Every receipt in the store passes validation. -/
def StoreValid (s : ReceiptService) : Prop :=
  ∀ id r, s.receiptStore.receiptStoreMap id = some r → validateReceipt r = .ok ()

/-- Go `int(math.Ceil(item.Price * 0.2))`. -/
def pricePoints (env : GoEnv) (item : Item) : Int :=
  floatToInt64 env (mathCeil (fmul item.Price (float64OfDecimal (1 / 5))))

/-- The integer `math.Ceil(item.Price * 0.2)`, the product being the one of `float64`. -/
def priceCeil (item : Item) : Int := ⌈fmul item.Price (float64OfDecimal (1 / 5))⌉

/-- The strings made of white space only. -/
def IsBlank (s : String) : Prop := ∀ c ∈ s.data, isSpace c = true

instance (s : String) : Decidable (IsBlank s) := by unfold IsBlank; infer_instance

/-! ## Sample data, taken from `receipt_service_test.go` -/

deriving instance DecidableEq for Except

/-- An environment to evaluate the model in: the conversion of amd64, and no
letter above U+00FF (the sample data has no such rune). -/
def sampleEnv : GoEnv := ⟨amd64Overflow, fun _ => false⟩

/-- The receipt `testReceipt` of the tests. -/
def testReceipt : Receipt :=
  ⟨"TestRetailer", "1999-01-20", "13:22", [], float64OfDecimal (1212 / 100)⟩

/-- The receipt of `TestProcessReceiptService`, which validation accepts. -/
def validReceipt : Receipt :=
  ⟨"TestRetailer", "1999-01-20", "13:22", [⟨"test product description", 0⟩], 0⟩

/-- The receipt of `TestProcessReceiptServiceInvalidReceipt`, without items. -/
def noItemsReceipt : Receipt := ⟨"TestRetailer", "1999-01-20", "13:22", [], 0⟩

/-- A receipt with one item of negative price; validation accepts it. -/
def negativePriceReceipt : Receipt := ⟨"", "1999-01-20", "13:00", [⟨"abc", -100⟩], 0⟩

/-- A receipt with two items of price 2.5e19, which is a `float64`; validation
accepts it. -/
def hugePriceReceipt : Receipt :=
  ⟨"", "1999-01-20", "13:00",
    [⟨"abc", 25000000000000000000⟩, ⟨"abc", 25000000000000000000⟩], 0⟩

/-- The receipt of `TestCalculateReceiptPoint` in its final state. -/
def fullTestReceipt : Receipt :=
  ⟨"TestRetailer", "1999-01-21", "14:01",
    [⟨"123", 1⟩, ⟨" 123 ", 1⟩, ⟨" 456 ", 1⟩, ⟨"", 1⟩, ⟨"", 1⟩], 12⟩

end ReceiptProcessor

namespace ReceiptProcessor

/-! ## Machine integers: lemmas -/

theorem wrap64_inInt64 (x : Int) : InInt64 (wrap64 x) := by
  unfold InInt64 wrap64; omega

theorem wrap64_of_inInt64 {x : Int} (h : InInt64 x) : wrap64 x = x := by
  unfold InInt64 at h; unfold wrap64; omega

theorem wrap64_idem (x : Int) : wrap64 (wrap64 x) = wrap64 x :=
  wrap64_of_inInt64 (wrap64_inInt64 x)

theorem wrap64_add_left (a b : Int) : wrap64 (wrap64 a + b) = wrap64 (a + b) := by
  unfold wrap64; omega

theorem wrap64_add_right (a b : Int) : wrap64 (a + wrap64 b) = wrap64 (a + b) := by
  unfold wrap64; omega

/-! ## Floating point: the rounding function against its specification -/

theorem bitLength_zero (fuel : Nat) : bitLength fuel 0 = 0 := by
  cases fuel <;> simp [bitLength]

/-- With enough fuel `bitLength` is the number of binary digits. -/
theorem bitLength_spec (fuel : Nat) :
    ∀ n : Nat, 0 < n → n ≤ fuel →
      2 ^ (bitLength fuel n - 1) ≤ n ∧ n < 2 ^ bitLength fuel n ∧ 0 < bitLength fuel n := by
  induction fuel with
  | zero => intro n h0 h1; omega
  | succ fuel ih =>
    intro n h0 h1
    unfold bitLength
    rw [if_neg (by omega)]
    rcases Nat.lt_or_ge n 2 with h2 | h2
    · have hn : n = 1 := by omega
      subst hn
      simp [bitLength_zero]
    · obtain ⟨ha, hb, hc⟩ := ih (n / 2) (by omega) (by omega)
      have hpow : 2 ^ bitLength fuel (n / 2) = 2 * 2 ^ (bitLength fuel (n / 2) - 1) := by
        rw [← pow_succ']
        congr 1
        omega
      refine ⟨?_, ?_, by omega⟩
      · rw [Nat.add_sub_cancel, hpow]
        omega
      · rw [pow_succ]
        omega

theorem bitLength_le (fuel : Nat) : ∀ n m : Nat, n < 2 ^ m → bitLength fuel n ≤ m := by
  induction fuel with
  | zero => intro n m _; simp [bitLength]
  | succ fuel ih =>
    intro n m h
    unfold bitLength
    split_ifs with hn
    · exact Nat.zero_le _
    · cases m with
      | zero => simp at h; exact absurd h hn
      | succ m =>
        have : n / 2 < 2 ^ m := by
          rw [pow_succ] at h
          omega
        have := ih (n / 2) m this
        omega

/-- The exponent `binadeExp` finds is the binary exponent of the rational. -/
theorem binadeExp_spec {q : ℚ} (hq : q ≠ 0) :
    (2 : ℚ) ^ binadeExp q ≤ |q| ∧ |q| < (2 : ℚ) ^ (binadeExp q + 1) := by
  have hnum : 0 < q.num.natAbs := Int.natAbs_pos.mpr (Rat.num_ne_zero.mpr hq)
  obtain ⟨ha1, ha2, ha3⟩ := bitLength_spec q.num.natAbs q.num.natAbs hnum (le_refl _)
  obtain ⟨hb1, hb2, hb3⟩ := bitLength_spec q.den q.den q.den_pos (le_refl _)
  have hden : (0 : ℚ) < (q.den : ℚ) := by exact_mod_cast q.den_pos
  have habs : |q| = (q.num.natAbs : ℚ) / (q.den : ℚ) := by
    conv_lhs => rw [← Rat.num_div_den q]
    rw [abs_div, Nat.cast_natAbs, Int.cast_abs, abs_of_pos hden]
  unfold binadeExp
  simp only
  generalize bitLength q.num.natAbs q.num.natAbs = la at *
  generalize bitLength q.den q.den = lb at *
  have ha1' : (2 : ℚ) ^ ((la : Int) - 1) ≤ (q.num.natAbs : ℚ) := by
    have : ((2 ^ (la - 1) : Nat) : ℚ) ≤ (q.num.natAbs : ℚ) := by exact_mod_cast ha1
    have e : ((la : Int) - 1) = ((la - 1 : Nat) : Int) := by omega
    rw [e, zpow_natCast]
    exact_mod_cast ha1
  have ha2' : (q.num.natAbs : ℚ) < (2 : ℚ) ^ (la : Int) := by
    rw [zpow_natCast]
    exact_mod_cast ha2
  have hb1' : (2 : ℚ) ^ ((lb : Int) - 1) ≤ (q.den : ℚ) := by
    have e : ((lb : Int) - 1) = ((lb - 1 : Nat) : Int) := by omega
    rw [e, zpow_natCast]
    exact_mod_cast hb1
  have hb2' : (q.den : ℚ) < (2 : ℚ) ^ (lb : Int) := by
    rw [zpow_natCast]
    exact_mod_cast hb2
  have h2 : (2 : ℚ) ≠ 0 := by norm_num
  have hupper : |q| < (2 : ℚ) ^ ((la : Int) - lb + 1) := by
    rw [habs, div_lt_iff₀ hden]
    calc (q.num.natAbs : ℚ) < (2 : ℚ) ^ (la : Int) := ha2'
      _ = (2 : ℚ) ^ ((la : Int) - lb + 1) * (2 : ℚ) ^ ((lb : Int) - 1) := by
          rw [← zpow_add₀ h2]
          congr 1
          ring
      _ ≤ (2 : ℚ) ^ ((la : Int) - lb + 1) * (q.den : ℚ) :=
          mul_le_mul_of_nonneg_left hb1' (zpow_pos (by norm_num) _).le
  have hlower : (2 : ℚ) ^ ((la : Int) - lb - 1) ≤ |q| := by
    rw [habs, le_div_iff₀ hden]
    calc (2 : ℚ) ^ ((la : Int) - lb - 1) * (q.den : ℚ)
        ≤ (2 : ℚ) ^ ((la : Int) - lb - 1) * (2 : ℚ) ^ (lb : Int) :=
          mul_le_mul_of_nonneg_left hb2'.le (zpow_pos (by norm_num) _).le
      _ = (2 : ℚ) ^ ((la : Int) - 1) := by
          rw [← zpow_add₀ h2]
          congr 1
          ring
      _ ≤ (q.num.natAbs : ℚ) := ha1'
  split_ifs with h
  · exact ⟨h, hupper⟩
  · refine ⟨hlower, ?_⟩
    rw [sub_add_cancel]
    exact not_le.mp h

/-- The binary exponent found for an integer below `2 ^ 64` in magnitude is at most 63. -/
theorem binadeExp_intCast_le (n : Int) (h : n.natAbs < 2 ^ 64) : binadeExp (n : ℚ) ≤ 63 := by
  have hb := bitLength_le n.natAbs n.natAbs 64 h
  have h1 : bitLength 1 1 = 1 := by decide
  unfold binadeExp
  simp only [Rat.intCast_num, Rat.intCast_den, h1]
  split_ifs <;> omega

theorem roundHalfEven_intCast (m : Int) : roundHalfEven (m : ℚ) = m := by
  simp [roundHalfEven]

theorem roundHalfEven_le (x : ℚ) : (roundHalfEven x : ℚ) ≤ x + 1 := by
  have hf : ((⌊x⌋ : Int) : ℚ) ≤ x := Int.floor_le x
  unfold roundHalfEven
  simp only
  split_ifs <;> push_cast <;> linarith

theorem roundHalfEven_nonneg {x : ℚ} (hx : 0 ≤ x) : 0 ≤ roundHalfEven x := by
  have hf : 0 ≤ ⌊x⌋ := Int.floor_nonneg.mpr hx
  unfold roundHalfEven
  simp only
  split_ifs <;> omega

theorem roundHalfEven_sub_abs_le (x : ℚ) : |(roundHalfEven x : ℚ) - x| ≤ 1 / 2 := by
  have hf : ((⌊x⌋ : Int) : ℚ) ≤ x := Int.floor_le x
  have hf' : x < ((⌊x⌋ : Int) : ℚ) + 1 := Int.lt_floor_add_one x
  unfold roundHalfEven
  simp only
  rw [abs_le]
  split_ifs <;> push_cast <;> constructor <;> linarith

/-- Rounding to `float64` moves a rational by at most half the spacing of the
`float64` values of its binade. -/
theorem roundFloat64_error (q : ℚ) :
    |roundFloat64 q - q| ≤ (2 : ℚ) ^ (max (binadeExp q) (-1022) - 52) / 2 := by
  unfold roundFloat64
  split_ifs with h0
  · rw [h0, sub_zero, abs_zero]
    exact div_nonneg (zpow_pos (by norm_num) _).le (by norm_num)
  · simp only
    generalize max (binadeExp q) (-1022) - 52 = e
    have hpos : (0 : ℚ) < (2 : ℚ) ^ e := zpow_pos (by norm_num) e
    have h := roundHalfEven_sub_abs_le (q / (2 : ℚ) ^ e)
    have hrw : (roundHalfEven (q / (2 : ℚ) ^ e) : ℚ) * (2 : ℚ) ^ e - q
        = ((roundHalfEven (q / (2 : ℚ) ^ e) : ℚ) - q / (2 : ℚ) ^ e) * (2 : ℚ) ^ e := by
      field_simp
    rw [hrw, abs_mul, abs_of_pos hpos]
    calc |(roundHalfEven (q / (2 : ℚ) ^ e) : ℚ) - q / (2 : ℚ) ^ e| * (2 : ℚ) ^ e
        ≤ 1 / 2 * (2 : ℚ) ^ e := mul_le_mul_of_nonneg_right h hpos.le
      _ = (2 : ℚ) ^ e / 2 := by ring

/-- Rounding a non-negative rational gives a non-negative `float64`. -/
theorem roundFloat64_nonneg {q : ℚ} (hq : 0 ≤ q) : 0 ≤ roundFloat64 q := by
  unfold roundFloat64
  split_ifs with h0
  · exact le_refl _
  · simp only
    generalize max (binadeExp q) (-1022) - 52 = e
    have hpos : (0 : ℚ) < (2 : ℚ) ^ e := zpow_pos (by norm_num) e
    have := roundHalfEven_nonneg (div_nonneg hq hpos.le)
    have h' : (0 : ℚ) ≤ (roundHalfEven (q / (2 : ℚ) ^ e) : ℚ) := by exact_mod_cast this
    exact mul_nonneg h' hpos.le

/-- Rounding an integer to `float64` gives an integer. -/
theorem roundFloat64_intCast_isInt (m : Int) : ∃ j : Int, roundFloat64 (m : ℚ) = j := by
  unfold roundFloat64
  split_ifs with h0
  · exact ⟨0, by simp⟩
  · simp only
    generalize max (binadeExp (m : ℚ)) (-1022) - 52 = e
    rcases le_or_lt 0 e with he | he
    · obtain ⟨k, rfl⟩ := Int.eq_ofNat_of_zero_le he
      refine ⟨roundHalfEven ((m : ℚ) / (2 : ℚ) ^ ((k : Nat) : Int)) * 2 ^ k, ?_⟩
      push_cast
      rw [zpow_natCast]
    · obtain ⟨k, hk⟩ := Int.eq_ofNat_of_zero_le (show 0 ≤ -e by omega)
      have he' : e = -(k : Int) := by omega
      refine ⟨m, ?_⟩
      have h2 : ((2 : ℚ) ^ k) ≠ 0 := pow_ne_zero _ (by norm_num)
      have hdiv : (m : ℚ) / (2 : ℚ) ^ e = ((m * 2 ^ k : Int) : ℚ) := by
        rw [he', zpow_neg, zpow_natCast]
        push_cast
        field_simp
      rw [hdiv, roundHalfEven_intCast, he', zpow_neg, zpow_natCast]
      push_cast
      field_simp

/-! ## Floating point: conversions -/

theorem truncQ_zero : truncQ 0 = 0 := by
  simp [truncQ]

theorem truncQ_intCast (m : Int) : truncQ (m : ℚ) = m := by
  simp [truncQ]

/-- The integer part of a rational is 0 exactly when its magnitude is below 1. -/
theorem truncQ_eq_zero_iff (q : ℚ) : truncQ q = 0 ↔ |q| < 1 := by
  unfold truncQ
  split_ifs with h
  · rw [Int.floor_eq_zero_iff, abs_of_nonneg h, Set.mem_Ico]
    exact ⟨fun hh => hh.2, fun hh => ⟨h, hh⟩⟩
  · have h' : q < 0 := not_le.mp h
    rw [Int.ceil_eq_zero_iff, abs_of_neg h', Set.mem_Ioc]
    constructor
    · rintro ⟨h1, _⟩
      linarith
    · intro h1
      exact ⟨by linarith, h'.le⟩

/-- Go `math.Mod(x, 0.25) == 0` holds exactly for the multiples of 0.25. -/
theorem mathMod_quarter_eq_zero_iff (x : ℚ) : mathMod x (1 / 4) = 0 ↔ ∃ n : Int, x = n / 4 := by
  unfold mathMod
  constructor
  · intro h
    exact ⟨truncQ (x / (1 / 4)), by linarith⟩
  · rintro ⟨n, rfl⟩
    have : (n : ℚ) / 4 / (1 / 4) = n := by field_simp
    rw [this, truncQ_intCast]
    ring

theorem floatToInt64_of_inInt64 (env : GoEnv) {f : Float64} (h : InInt64 (truncQ f)) :
    floatToInt64 env f = truncQ f := by
  unfold floatToInt64
  rw [if_pos h]

theorem mathCeil_toInt (env : GoEnv) (x : Float64) (h : InInt64 ⌈x⌉) :
    floatToInt64 env (mathCeil x) = ⌈x⌉ := by
  unfold mathCeil
  rw [floatToInt64_of_inInt64 env (by rw [truncQ_intCast]; exact h), truncQ_intCast]

/-- The `float64` nearest to an `int64` is below `2 ^ 64`. -/
theorem int64ToFloat_lt (n : Int) (h : InInt64 n) : int64ToFloat n < 2 ^ 64 := by
  unfold int64ToFloat roundFloat64
  split_ifs with h0
  · norm_num
  · simp only
    have hn : n.natAbs < 2 ^ 64 := by
      unfold InInt64 at h
      omega
    have he : max (binadeExp (n : ℚ)) (-1022) - 52 ≤ 11 := by
      have := binadeExp_intCast_le n hn
      omega
    generalize max (binadeExp (n : ℚ)) (-1022) - 52 = e at he
    have hpos : (0 : ℚ) < (2 : ℚ) ^ e := zpow_pos (by norm_num) e
    have hle : (2 : ℚ) ^ e ≤ 2 ^ (11 : Int) := zpow_le_zpow_right₀ (by norm_num) he
    have hr := roundHalfEven_le ((n : ℚ) / (2 : ℚ) ^ e)
    have hmul : (roundHalfEven ((n : ℚ) / (2 : ℚ) ^ e) : ℚ) * (2 : ℚ) ^ e
        ≤ ((n : ℚ) / (2 : ℚ) ^ e + 1) * (2 : ℚ) ^ e :=
      mul_le_mul_of_nonneg_right hr hpos.le
    have hcancel : ((n : ℚ) / (2 : ℚ) ^ e + 1) * (2 : ℚ) ^ e = n + (2 : ℚ) ^ e := by
      field_simp
    have hn' : (n : ℚ) < 2 ^ 63 := by
      have : n < 2 ^ 63 := h.2
      exact_mod_cast this
    rw [hcancel] at hmul
    have h11 : (2 : ℚ) ^ (11 : Int) = 2048 := by norm_num
    rw [h11] at hle
    calc (roundHalfEven ((n : ℚ) / (2 : ℚ) ^ e) : ℚ) * (2 : ℚ) ^ e
        ≤ n + (2 : ℚ) ^ e := hmul
      _ < 2 ^ 63 + 2048 := by linarith
      _ < 2 ^ 64 := by norm_num

/-! ## `time.Parse`: lemmas -/

theorem parseTime_fields {s : String} {t : GoTime} (h : parseTime s = some t) :
    t.year = 0 ∧ t.month = 1 ∧ t.day = 1 ∧ t.hour < 24 ∧ t.min < 60 := by
  unfold parseTime at h
  repeat' (split at h <;> try contradiction)
  simp only [Option.some.injEq] at h
  subst h
  simp only [true_and]
  omega

theorem startTime_eq : startTime = ⟨0, 1, 1, 14, 0⟩ := by decide

theorem endTime_eq : endTime = ⟨0, 1, 1, 16, 0⟩ := by decide

/-- The test of the time rule, on a parsed time, is the test of lying strictly
between 14:00 and 16:00. -/
theorem window_iff {s : String} {t : GoTime} (h : parseTime s = some t) :
    (t.After startTime && t.Before endTime) = true
      ↔ 14 * 60 < t.hour * 60 + t.min ∧ t.hour * 60 + t.min < 16 * 60 := by
  obtain ⟨hy, hm, hd, _, _⟩ := parseTime_fields h
  simp only [GoTime.After, GoTime.Before, GoTime.instant, startTime_eq, endTime_eq, hy, hm, hd,
    Bool.and_eq_true, decide_eq_true_eq]
  omega

/-! ## The shape of `calculatePointsFromReceipt` -/

theorem calculatePointsFromReceipt_eq (env : GoEnv) (r : Receipt) :
    calculatePointsFromReceipt env r =
      match parseDate r.PurchaseDate with
      | none => .error "cannot parse date to number"
      | some d =>
        match parseTime r.PurchaseTime with
        | none => .error "invalid time format"
        | some t =>
          .ok (timeRule t (dateRule d (pointsBeforeDate env r.Retailer r.Total r.Items))) := by
  rfl

/-- Validation passes exactly when the date and the time parse, the total is
not negative and there is an item. -/
theorem validateReceipt_ok_iff (r : Receipt) :
    validateReceipt r = .ok ()
      ↔ parseDate r.PurchaseDate ≠ none ∧ parseTime r.PurchaseTime ≠ none
        ∧ ¬ r.Total < 0 ∧ r.Items ≠ [] := by
  unfold validateReceipt
  cases hd : parseDate r.PurchaseDate with
  | none => simp
  | some d =>
    cases ht : parseTime r.PurchaseTime with
    | none => simp
    | some t =>
      by_cases h0 : r.Total < 0
      · simp [h0]
      · cases hi : r.Items with
        | nil => simp [h0]
        | cons a l => simp [h0]

/-- Scoring succeeds exactly when the date and the time parse. -/
theorem calculatePointsFromReceipt_ok_iff (env : GoEnv) (r : Receipt) :
    (∃ points, calculatePointsFromReceipt env r = .ok points)
      ↔ parseDate r.PurchaseDate ≠ none ∧ parseTime r.PurchaseTime ≠ none := by
  rw [calculatePointsFromReceipt_eq]
  cases hd : parseDate r.PurchaseDate with
  | none => simp
  | some d =>
    cases ht : parseTime r.PurchaseTime with
    | none => simp
    | some t => simp

/-! ## The score as a sum in `int64` -/

theorem totalRules_wrap64 (env : GoEnv) (total : Float64) (x : Int) :
    totalRules env total (wrap64 x) = wrap64 (x + totalBonus env total) := by
  unfold totalRules totalBonus add64
  split_ifs <;> simp only [wrap64_add_left, wrap64_idem, add_zero, zero_add, add_assoc]

theorem dateRule_wrap64 (d : GoTime) (x : Int) :
    dateRule d (wrap64 x) = wrap64 (x + dayBonus d) := by
  unfold dateRule dayBonus add64
  split_ifs <;> simp only [wrap64_add_left, wrap64_idem, add_zero]

theorem timeRule_wrap64 (t : GoTime) (x : Int) :
    timeRule t (wrap64 x) = wrap64 (x + timeBonus t) := by
  unfold timeRule timeBonus add64
  split_ifs <;> simp only [wrap64_add_left, wrap64_idem, add_zero]

theorem pointsBeforeDate_eq (env : GoEnv) (retailer : String) (total : Float64)
    (items : List Item) :
    pointsBeforeDate env retailer total items
      = wrap64 (countAlphanNumericCharacters env retailer + totalBonus env total
          + 5 * ((items.length / 2 : Nat) : Int) + pointsByDescription env items) := by
  unfold pointsBeforeDate add64 mul64
  rw [totalRules_wrap64]
  generalize countAlphanNumericCharacters env retailer = a
  generalize totalBonus env total = b
  generalize pointsByDescription env items = c
  generalize ((items.length / 2 : Nat) : Int) = n
  unfold wrap64
  omega

/-- The score of a receipt whose date and time parse is the sum, in `int64`
arithmetic, of what the rules add. -/
theorem score_formula (env : GoEnv) (r : Receipt) (d t : GoTime)
    (hd : parseDate r.PurchaseDate = some d) (ht : parseTime r.PurchaseTime = some t) :
    calculatePointsFromReceipt env r
      = .ok (wrap64 (countAlphanNumericCharacters env r.Retailer + totalBonus env r.Total
          + 5 * ((r.Items.length / 2 : Nat) : Int) + pointsByDescription env r.Items
          + dayBonus d + timeBonus t)) := by
  rw [calculatePointsFromReceipt_eq, hd, ht]
  simp only
  rw [pointsBeforeDate_eq, dateRule_wrap64, timeRule_wrap64]

/-- Two receipts that differ in the total only, with totals that earn the
same bonus, score the same. -/
theorem score_congr_total (env : GoEnv) (r : Receipt) {a b : Float64}
    (h : totalBonus env a = totalBonus env b) :
    calculatePointsFromReceipt env { r with Total := a }
      = calculatePointsFromReceipt env { r with Total := b } := by
  rw [calculatePointsFromReceipt_eq, calculatePointsFromReceipt_eq]
  simp only [pointsBeforeDate_eq, h]

/-! ## The points of the descriptions -/

theorem descriptionStep_wrap64 (env : GoEnv) (x : Int) (item : Item)
    (h : InInt64 (itemBonus item)) :
    descriptionStep env (wrap64 x) item = wrap64 (x + itemBonus item) := by
  unfold descriptionStep itemBonus descriptionCounts at *
  simp only
  split_ifs at h ⊢ with hc
  · rw [mathCeil_toInt env _ h, add64, wrap64_add_left]
  · rw [add_zero]

theorem foldl_descriptionStep (env : GoEnv) :
    ∀ (items : List Item) (x : Int), (∀ item ∈ items, InInt64 (itemBonus item)) →
      items.foldl (descriptionStep env) (wrap64 x) = wrap64 (x + (items.map itemBonus).sum) := by
  intro items
  induction items with
  | nil => intro x _; simp
  | cons item items ih =>
    intro x h
    rw [List.foldl_cons, descriptionStep_wrap64 env x item (h item (List.mem_cons_self _ _)),
      ih _ (fun i hi => h i (List.mem_cons_of_mem _ hi)), List.map_cons, List.sum_cons, add_assoc]

/-- When every conversion `int(math.Ceil(price * 0.2))` fits, the loop over the
items computes the `int` sum of the bonuses of the items. -/
theorem pointsByDescription_eq (env : GoEnv) (items : List Item)
    (h : ∀ item ∈ items, InInt64 (itemBonus item)) :
    pointsByDescription env items = wrap64 ((items.map itemBonus).sum) := by
  have := foldl_descriptionStep env items 0 h
  rw [zero_add] at this
  rw [← this]
  rfl

theorem itemBonus_nonneg {item : Item} (h : 0 ≤ item.Price) : 0 ≤ itemBonus item := by
  unfold itemBonus
  split_ifs
  · have hc : (0 : ℚ) ≤ float64OfDecimal (1 / 5) := roundFloat64_nonneg (by norm_num)
    exact Int.ceil_nonneg (roundFloat64_nonneg (mul_nonneg h hc))
  · exact le_refl _

/-! ## Bounds on the parts of the score -/

theorem foldl_count_bounds (env : GoEnv) :
    ∀ (l : List Char) (acc : Int), 0 ≤ acc → acc + l.length < 2 ^ 63 →
      acc ≤ l.foldl (fun count c => if isLetter env c then add64 count 1 else count) acc
      ∧ l.foldl (fun count c => if isLetter env c then add64 count 1 else count) acc
          ≤ acc + l.length := by
  intro l
  induction l with
  | nil => intro acc _ _; simp
  | cons c l ih =>
    intro acc h0 hlt
    rw [List.foldl_cons]
    simp only [List.length_cons, Nat.cast_add, Nat.cast_one] at hlt ⊢
    split_ifs
    · have h1 : add64 acc 1 = acc + 1 := wrap64_of_inInt64 ⟨by omega, by omega⟩
      rw [h1]
      have := ih (acc + 1) (by omega) (by omega)
      omega
    · have := ih acc h0 (by omega)
      omega

/-- The count of letters is between 0 and the number of characters. -/
theorem countAlphanNumericCharacters_bounds (env : GoEnv) (s : String)
    (h : (s.length : Int) < 2 ^ 63) :
    0 ≤ countAlphanNumericCharacters env s ∧ countAlphanNumericCharacters env s ≤ s.length := by
  have := foldl_count_bounds env s.data 0 (le_refl _) (by rw [zero_add]; exact h)
  rw [zero_add] at this
  exact this

theorem totalBonus_bounds (env : GoEnv) (total : Float64) :
    0 ≤ totalBonus env total ∧ totalBonus env total ≤ 75 := by
  unfold totalBonus
  split_ifs <;> omega

theorem dayBonus_bounds (d : GoTime) : 0 ≤ dayBonus d ∧ dayBonus d ≤ 6 := by
  unfold dayBonus
  split_ifs <;> omega

theorem timeBonus_bounds (t : GoTime) : 0 ≤ timeBonus t ∧ timeBonus t ≤ 10 := by
  unfold timeBonus
  split_ifs <;> omega

/-! ## The rules on the total -/

theorem totalBonus_of_truncQ_eq_zero (env : GoEnv) {total : Float64} (h : truncQ total = 0) :
    totalBonus env total = 0 := by
  have h0 : floatToInt64 env total = 0 := by
    rw [floatToInt64_of_inInt64 env (by rw [h]; decide), h]
  simp [totalBonus, h0]

/-- On a total whose integer part fits `int64`, the test of rule 3 holds
exactly when the total is a multiple of 0.25 of magnitude at least 1. -/
theorem quarter_test_iff (env : GoEnv) (total : Float64) (hr : InInt64 (truncQ total)) :
    (floatToInt64 env total ≠ 0 ∧ mathMod total (1 / 4) = 0)
      ↔ (1 ≤ |total| ∧ ∃ n : Int, total = n / 4) := by
  rw [floatToInt64_of_inInt64 env hr, mathMod_quarter_eq_zero_iff, Ne, truncQ_eq_zero_iff,
    not_lt]

/-- The test of rule 2 only holds on a non-zero integer, in every environment:
a total with cents never earns the 50 points. -/
theorem round_dollar_test_sound (env : GoEnv) (total : Float64)
    (h : floatToInt64 env total ≠ 0 ∧ int64ToFloat (floatToInt64 env total) = total) :
    total ≠ 0 ∧ ∃ n : Int, total = n := by
  obtain ⟨h0, h1⟩ := h
  refine ⟨?_, ?_⟩
  · rintro rfl
    exact h0 (by rw [floatToInt64_of_inInt64 env (by rw [truncQ_zero]; decide), truncQ_zero])
  · obtain ⟨j, hj⟩ := roundFloat64_intCast_isInt (floatToInt64 env total)
    exact ⟨j, by rw [← h1, int64ToFloat, hj]⟩

/-- The total 1.07 of the tests earns nothing from the rules on the total. -/
theorem totalBonus_1_07 (env : GoEnv) : totalBonus env (float64OfDecimal (107 / 100)) = 0 := by
  have ht : truncQ (float64OfDecimal (107 / 100)) = 1 := by decide!
  have hi : floatToInt64 env (float64OfDecimal (107 / 100)) = 1 := by
    rw [floatToInt64_of_inInt64 env (by rw [ht]; decide), ht]
  have h1 : int64ToFloat 1 ≠ float64OfDecimal (107 / 100) := by decide!
  have h2 : mathMod (float64OfDecimal (107 / 100)) (1 / 4) ≠ 0 := by decide!
  unfold totalBonus
  rw [hi, if_neg (fun h => h1 h.2), if_neg (fun h => h2 h.2)]
  rfl

/-- The total 1.25 of the tests earns the 25 points of rule 3, and nothing else. -/
theorem totalBonus_1_25 (env : GoEnv) : totalBonus env (5 / 4) = 25 := by
  have ht : truncQ (5 / 4) = 1 := by decide!
  have hi : floatToInt64 env (5 / 4) = 1 := by
    rw [floatToInt64_of_inInt64 env (by rw [ht]; decide), ht]
  have h1 : int64ToFloat 1 ≠ 5 / 4 := by decide!
  have h2 : mathMod (5 / 4) (1 / 4) = 0 := by decide!
  unfold totalBonus
  rw [hi, if_neg (fun h => h1 h.2), if_pos ⟨by decide, h2⟩]
  rfl

/-- The total `2 ^ 64` earns the 25 points of rule 3 at most: the conversion
`int(receipt.Total)` cannot give `2 ^ 64`, whatever the implementation. -/
theorem totalBonus_two_pow_64 (env : GoEnv) :
    totalBonus env (2 ^ 64) = 0 ∨ totalBonus env (2 ^ 64) = 25 := by
  have hne : int64ToFloat (floatToInt64 env (2 ^ 64)) ≠ 2 ^ 64 := by
    have ht : ¬ InInt64 (truncQ (2 ^ 64)) := by decide!
    unfold floatToInt64
    rw [if_neg ht]
    exact ne_of_lt (int64ToFloat_lt _ (wrap64_inInt64 _))
  unfold totalBonus
  rw [if_neg (fun h => hne h.2)]
  split_ifs
  · right; rfl
  · left; rfl

/-! ## The tests of the repository, replayed on the model -/

/-- The six scores `TestCalculateReceiptPoint` asserts, in its order: the
letters of the retailer, the round total, five items, three descriptions of
length 3, an odd day, a time in the window. -/
theorem TestCalculateReceiptPoint_scores :
    calculatePointsFromReceipt sampleEnv testReceipt = .ok 12
    ∧ calculatePointsFromReceipt sampleEnv { testReceipt with Total := 12 } = .ok 87
    ∧ calculatePointsFromReceipt sampleEnv
        { testReceipt with
          Total := 12, Items := [⟨" ", 1⟩, ⟨"", 1⟩, ⟨"", 1⟩, ⟨"", 1⟩, ⟨"", 1⟩] } = .ok 97
    ∧ calculatePointsFromReceipt sampleEnv
        { fullTestReceipt with PurchaseDate := "1999-01-20", PurchaseTime := "13:22" } = .ok 100
    ∧ calculatePointsFromReceipt sampleEnv
        { fullTestReceipt with PurchaseTime := "13:22" } = .ok 106
    ∧ calculatePointsFromReceipt sampleEnv fullTestReceipt = .ok 116 := by
  decide!

/-- The four messages `TestProcessReceiptServiceInvalidReceipt` asserts. -/
theorem TestProcessReceiptServiceInvalidReceipt_messages :
    validateReceipt noItemsReceipt = .error "items can not be empty"
    ∧ validateReceipt
        { noItemsReceipt with Total := -1, Items := [⟨"description", 0⟩] }
        = .error "invalid total price"
    ∧ validateReceipt
        { noItemsReceipt with PurchaseDate := "", Items := [⟨"description", 0⟩] }
        = .error "invalid purchase date format"
    ∧ validateReceipt
        { noItemsReceipt with
          PurchaseDate := "1999-01-02", PurchaseTime := "1999-01-02",
          Items := [⟨"description", 0⟩] }
        = .error "invalid purchase time format" := by
  decide!

/-- What `time.Parse` accepts: a date needs four, two and two digits and must
exist in the calendar; the hour of a time may have one digit. -/
theorem parse_examples :
    parseDate "1999-01-20" = some ⟨1999, 1, 20, 0, 0⟩
    ∧ parseDate "2000-02-29" = some ⟨2000, 2, 29, 0, 0⟩
    ∧ parseDate "1999-02-29" = none
    ∧ parseDate "1999-1-20" = none
    ∧ parseDate "1999-01-20 " = none
    ∧ parseTime "13:22" = some ⟨0, 1, 1, 13, 22⟩
    ∧ parseTime "9:05" = some ⟨0, 1, 1, 9, 5⟩
    ∧ parseTime "24:00" = none
    ∧ parseTime "13:60" = none
    ∧ parseTime "13:5" = none := by
  decide

/-- The constant `0.2` of the code, and the totals 1.07 and 12.12 of the
tests, as `float64` values; 1.07 is not itself one. -/
theorem float64_examples :
    float64OfDecimal (1 / 5) = 3602879701896397 / 2 ^ 54
    ∧ float64OfDecimal (107 / 100) = 4818851601286431 / 2 ^ 52
    ∧ float64OfDecimal (1212 / 100) = 6822953435466301 / 2 ^ 49
    ∧ ¬ IsFloat64 (107 / 100)
    ∧ IsFloat64 (float64OfDecimal (107 / 100))
    ∧ IsFloat64 (5 / 4) := by
  decide!

/-! ## C1: rule 3, the multiples of 0.25 -/

/-- C1, at the inputs on which the code departs from it: the totals 0.25, 0.50
and 0.75 are `float64` values, non-zero and exact multiples of 0.25, and a
receipt with one of them scores exactly what the same receipt scores with the
total 1.07, which earns nothing from the rules on the total: `int64(total)` is
0 for them, so the guard `int64(receipt.Total) != 0` of rule 3 skips the rule. -/
theorem quarter_totals_below_one_dollar_earn_nothing (env : GoEnv) (r : Receipt) :
    (IsFloat64 (1 / 4) ∧ IsFloat64 (1 / 2) ∧ IsFloat64 (3 / 4))
    ∧ (mathMod (1 / 4) (1 / 4) = 0 ∧ mathMod (1 / 2) (1 / 4) = 0 ∧ mathMod (3 / 4) (1 / 4) = 0)
    ∧ calculatePointsFromReceipt env { r with Total := 1 / 4 }
        = calculatePointsFromReceipt env { r with Total := float64OfDecimal (107 / 100) }
    ∧ calculatePointsFromReceipt env { r with Total := 1 / 2 }
        = calculatePointsFromReceipt env { r with Total := float64OfDecimal (107 / 100) }
    ∧ calculatePointsFromReceipt env { r with Total := 3 / 4 }
        = calculatePointsFromReceipt env { r with Total := float64OfDecimal (107 / 100) } := by
  refine ⟨by decide!, by decide!, ?_, ?_, ?_⟩
  · exact score_congr_total env r
      ((totalBonus_of_truncQ_eq_zero env (by decide!)).trans (totalBonus_1_07 env).symm)
  · exact score_congr_total env r
      ((totalBonus_of_truncQ_eq_zero env (by decide!)).trans (totalBonus_1_07 env).symm)
  · exact score_congr_total env r
      ((totalBonus_of_truncQ_eq_zero env (by decide!)).trans (totalBonus_1_07 env).symm)

/-- The receipt of `TestCalculateReceiptPointTotalNotRoundAmountButMultipleOfPoint25`
scores 25 with the total 1.25, and 0 with the totals 0.25 and 1.07. -/
theorem quarter_test_receipt_scores :
    calculatePointsFromReceipt sampleEnv ⟨"", "1999-01-20", "13:00", [], 5 / 4⟩ = .ok 25
    ∧ calculatePointsFromReceipt sampleEnv ⟨"", "1999-01-20", "13:00", [], 1 / 4⟩ = .ok 0
    ∧ calculatePointsFromReceipt sampleEnv
        ⟨"", "1999-01-20", "13:00", [], float64OfDecimal (107 / 100)⟩ = .ok 0 := by
  decide!

/-! ## C2: rule 2, the round dollar amounts -/

/-- On a total that is a `float64` and whose integer part fits `int64`, the
test of rule 2 holds exactly when the total is a non-zero integer. -/
theorem round_dollar_test_iff (env : GoEnv) (total : Float64) (hf : IsFloat64 total)
    (hr : InInt64 (truncQ total)) :
    (floatToInt64 env total ≠ 0 ∧ int64ToFloat (floatToInt64 env total) = total)
      ↔ (total ≠ 0 ∧ ∃ n : Int, total = n) := by
  constructor
  · exact round_dollar_test_sound env total
  · rw [floatToInt64_of_inInt64 env hr]
    rintro ⟨h0, n, rfl⟩
    rw [truncQ_intCast]
    refine ⟨?_, hf.1⟩
    rintro rfl
    exact h0 (by simp)

/-- Witness of `round_dollar_test_iff`: the total 12 of the tests. -/
theorem round_dollar_test_iff_witness :
    IsFloat64 12 ∧ InInt64 (truncQ 12)
    ∧ ((floatToInt64 sampleEnv 12 ≠ 0 ∧ int64ToFloat (floatToInt64 sampleEnv 12) = 12)
        ↔ ((12 : ℚ) ≠ 0 ∧ ∃ n : Int, (12 : ℚ) = n)) :=
  ⟨by decide!, by decide!, round_dollar_test_iff sampleEnv 12 (by decide!) (by decide!)⟩

/-- C2, at an input on which the code departs from it: `2 ^ 64` is a `float64`,
a non-zero integral amount, and the test of rule 2 fails on it on every
implementation, because `int(receipt.Total)` overflows; a receipt with that
total scores like the same receipt with the total 0.25 (no bonus) or with the
total 1.25 (the 25 points of rule 3 only), never with the 50 points. -/
theorem round_dollar_bonus_lost_on_overflow (env : GoEnv) (r : Receipt) :
    IsFloat64 (2 ^ 64)
    ∧ ((2 : ℚ) ^ 64 ≠ 0 ∧ ∃ n : Int, (2 : ℚ) ^ 64 = n)
    ∧ ¬ (floatToInt64 env (2 ^ 64) ≠ 0 ∧ int64ToFloat (floatToInt64 env (2 ^ 64)) = 2 ^ 64)
    ∧ (calculatePointsFromReceipt env { r with Total := 2 ^ 64 }
          = calculatePointsFromReceipt env { r with Total := 1 / 4 }
        ∨ calculatePointsFromReceipt env { r with Total := 2 ^ 64 }
          = calculatePointsFromReceipt env { r with Total := 5 / 4 }) := by
  refine ⟨by decide!, ⟨by norm_num, 2 ^ 64, by norm_num⟩, ?_, ?_⟩
  · rintro ⟨_, h⟩
    have ht : ¬ InInt64 (truncQ (2 ^ 64)) := by decide!
    unfold floatToInt64 at h
    rw [if_neg ht] at h
    exact ne_of_lt (int64ToFloat_lt _ (wrap64_inInt64 _)) h
  · rcases totalBonus_two_pow_64 env with h | h
    · left
      exact score_congr_total env r
        (h.trans (totalBonus_of_truncQ_eq_zero env (by decide!)).symm)
    · right
      exact score_congr_total env r (h.trans (totalBonus_1_25 env).symm)

/-- With the conversions of amd64 and of arm64 alike, the tests' receipt with
the total `2 ^ 64` gets the 25 points of rule 3 and not the 50 of rule 2,
where the total 12 gets both. -/
theorem round_dollar_overflow_evaluated :
    calculatePointsFromReceipt sampleEnv ⟨"", "1999-01-20", "13:00", [], 2 ^ 64⟩ = .ok 25
    ∧ calculatePointsFromReceipt ⟨arm64Overflow, fun _ => false⟩
        ⟨"", "1999-01-20", "13:00", [], 2 ^ 64⟩ = .ok 25
    ∧ calculatePointsFromReceipt sampleEnv ⟨"", "1999-01-20", "13:00", [], 12⟩ = .ok 75 := by
  decide!

/-! ## C3: a total of zero -/

/-- C3: on a receipt whose total is 0 and whose date and time parse, the two
rules on the total add nothing: the score is the sum, in `int64` arithmetic,
of the letters of the retailer, 5 for every two items, the points of the
descriptions, the day bonus and the time bonus.  When nothing overflows
`int64`, that sum is the sum of integers, with `ceil(price * 0.2)` for every
item the loop counts. -/
theorem zero_total_earns_nothing (env : GoEnv) (r : Receipt) (d t : GoTime)
    (h0 : r.Total = 0) (hd : parseDate r.PurchaseDate = some d)
    (ht : parseTime r.PurchaseTime = some t) :
    totalBonus env r.Total = 0
    ∧ (∀ points, totalRules env r.Total points = points)
    ∧ calculatePointsFromReceipt env r
      = .ok (wrap64 (countAlphanNumericCharacters env r.Retailer
          + 5 * ((r.Items.length / 2 : Nat) : Int) + pointsByDescription env r.Items
          + (if d.Day % 2 ≠ 0 then 6 else 0)
          + (if t.After startTime && t.Before endTime then 10 else 0)))
    ∧ ((∀ item ∈ r.Items, InInt64 (itemBonus item)) →
        InInt64 (countAlphanNumericCharacters env r.Retailer
          + 5 * ((r.Items.length / 2 : Nat) : Int) + (r.Items.map itemBonus).sum
          + (if d.Day % 2 ≠ 0 then 6 else 0)
          + (if t.After startTime && t.Before endTime then 10 else 0)) →
        calculatePointsFromReceipt env r
          = .ok (countAlphanNumericCharacters env r.Retailer
            + 5 * ((r.Items.length / 2 : Nat) : Int) + (r.Items.map itemBonus).sum
            + (if d.Day % 2 ≠ 0 then 6 else 0)
            + (if t.After startTime && t.Before endTime then 10 else 0))) := by
  have hb : totalBonus env r.Total = 0 :=
    totalBonus_of_truncQ_eq_zero env (by rw [h0]; exact truncQ_zero)
  have h1 : floatToInt64 env r.Total = 0 := by
    rw [floatToInt64_of_inInt64 env (by rw [h0, truncQ_zero]; decide), h0, truncQ_zero]
  have hs := score_formula env r d t hd ht
  rw [hb, add_zero] at hs
  refine ⟨hb, ?_, hs, ?_⟩
  · intro points
    simp [totalRules, h1]
  · intro hin hfit
    rw [hs, pointsByDescription_eq env r.Items hin]
    have e : ∀ a b c : Int, wrap64 (a + wrap64 b + c) = wrap64 (a + b + c) := by
      intro a b c
      unfold wrap64
      omega
    change Except.ok (wrap64 (_ + wrap64 _ + dayBonus d + timeBonus t)) = _
    rw [add_assoc _ (dayBonus d), e, ← add_assoc]
    exact congrArg Except.ok (wrap64_of_inInt64 hfit)

/-- Witness of C3: the receipt of `TestCalculateReceiptPointItemNotSatisfy`,
with total 0, scores 0. -/
theorem zero_total_earns_nothing_witness :
    calculatePointsFromReceipt sampleEnv ⟨"", "1999-01-20", "13:00", [], 0⟩ = .ok 0 :=
  ((zero_total_earns_nothing sampleEnv ⟨"", "1999-01-20", "13:00", [], 0⟩
    ⟨1999, 1, 20, 0, 0⟩ ⟨0, 1, 1, 13, 0⟩ rfl (by decide) (by decide)).2.2.1).trans (by decide!)

/-! ## C4: the sign of the score -/

/-- The receipt with an item of price -100 scores -20, in every environment. -/
theorem negativePriceReceipt_score (env : GoEnv) :
    calculatePointsFromReceipt env negativePriceReceipt = .ok (-20) := by
  have hb : itemBonus ⟨"abc", -100⟩ = -20 := by decide!
  have hp : pointsByDescription env negativePriceReceipt.Items = -20 := by
    rw [pointsByDescription_eq env _ (by
      intro item hi
      rw [List.mem_singleton.mp hi, hb]
      decide)]
    simp only [negativePriceReceipt, List.map_cons, List.map_nil, List.sum_cons, List.sum_nil, hb]
    decide
  rw [score_formula env negativePriceReceipt ⟨1999, 1, 20, 0, 0⟩ ⟨0, 1, 1, 13, 0⟩
    (by decide) (by decide), hp,
    totalBonus_of_truncQ_eq_zero env (show truncQ negativePriceReceipt.Total = 0 from truncQ_zero)]
  have hcount : countAlphanNumericCharacters env negativePriceReceipt.Retailer = 0 := rfl
  rw [hcount]
  decide

/-- The receipt with two items of price 2.5e19 scores a negative number, in
every environment: each item earns 5e18, and the `int` sum of the two wraps
around.  This is why the amended C4 asks for sums below `2 ^ 63`. -/
theorem hugePriceReceipt_score (env : GoEnv) :
    IsFloat64 25000000000000000000
    ∧ calculatePointsFromReceipt env hugePriceReceipt = .ok (-8446744073709551611) := by
  refine ⟨by decide!, ?_⟩
  have hb : itemBonus ⟨"abc", 25000000000000000000⟩ = 5000000000000000000 := by decide!
  have hp : pointsByDescription env hugePriceReceipt.Items = -8446744073709551616 := by
    rw [pointsByDescription_eq env _ (by
      intro item hi
      simp only [hugePriceReceipt, List.mem_cons, List.mem_singleton, List.not_mem_nil,
        or_false, or_self] at hi
      rw [hi, hb]
      decide)]
    simp only [hugePriceReceipt, List.map_cons, List.map_nil, List.sum_cons, List.sum_nil, hb]
    decide
  rw [score_formula env hugePriceReceipt ⟨1999, 1, 20, 0, 0⟩ ⟨0, 1, 1, 13, 0⟩
    (by decide) (by decide), hp,
    totalBonus_of_truncQ_eq_zero env (show truncQ hugePriceReceipt.Total = 0 from truncQ_zero)]
  have hcount : countAlphanNumericCharacters env hugePriceReceipt.Retailer = 0 := rfl
  rw [hcount]
  decide

/-- Counterexample to C4: validation accepts the receipt with an item of price
-100, and in no environment is its score, which is -20, non-negative. -/
theorem score_can_be_negative :
    validateReceipt negativePriceReceipt = .ok ()
    ∧ ¬ ∃ env : GoEnv, ∀ points : Int,
        calculatePointsFromReceipt env negativePriceReceipt = .ok points → 0 ≤ points := by
  refine ⟨by decide!, ?_⟩
  rintro ⟨env, h⟩
  have := h (-20) (negativePriceReceipt_score env)
  omega

/-- C4, amended: on a receipt whose item prices are all non-negative and whose
parts of the score, added without wrap-around, stay below `2 ^ 63`, a score
`calculatePointsFromReceipt` returns is non-negative. -/
theorem score_nonneg_of_prices_nonneg (env : GoEnv) (r : Receipt) (points : Int)
    (hprice : ∀ item ∈ r.Items, 0 ≤ item.Price)
    (hfit : (r.Retailer.length : Int) + 5 * ((r.Items.length / 2 : Nat) : Int)
        + (r.Items.map itemBonus).sum + 91 < 2 ^ 63)
    (hok : calculatePointsFromReceipt env r = .ok points) :
    0 ≤ points := by
  obtain ⟨hd, ht⟩ := (calculatePointsFromReceipt_ok_iff env r).mp ⟨points, hok⟩
  obtain ⟨d, hd⟩ := Option.ne_none_iff_exists'.mp hd
  obtain ⟨t, ht⟩ := Option.ne_none_iff_exists'.mp ht
  have hnn : ∀ x ∈ r.Items.map itemBonus, (0 : Int) ≤ x := by
    intro x hx
    obtain ⟨item, hi, rfl⟩ := List.mem_map.mp hx
    exact itemBonus_nonneg (hprice item hi)
  have hsum : 0 ≤ (r.Items.map itemBonus).sum := List.sum_nonneg hnn
  have hlen : (0 : Int) ≤ ((r.Items.length / 2 : Nat) : Int) := Int.natCast_nonneg _
  have hrl : (0 : Int) ≤ (r.Retailer.length : Int) := Int.natCast_nonneg _
  have hin : ∀ item ∈ r.Items, InInt64 (itemBonus item) := by
    intro item hi
    have h1 : itemBonus item ≤ (r.Items.map itemBonus).sum :=
      List.single_le_sum hnn _ (List.mem_map_of_mem _ hi)
    have h2 := itemBonus_nonneg (hprice item hi)
    exact ⟨by omega, by omega⟩
  have hpbd : pointsByDescription env r.Items = (r.Items.map itemBonus).sum := by
    rw [pointsByDescription_eq env r.Items hin]
    exact wrap64_of_inInt64 ⟨by omega, by omega⟩
  obtain ⟨hc0, hc1⟩ := countAlphanNumericCharacters_bounds env r.Retailer (by omega)
  obtain ⟨hb0, hb1⟩ := totalBonus_bounds env r.Total
  obtain ⟨hd0, hd1⟩ := dayBonus_bounds d
  obtain ⟨ht0, ht1⟩ := timeBonus_bounds t
  rw [score_formula env r d t hd ht, hpbd] at hok
  injection hok with hok
  rw [wrap64_of_inInt64 ⟨by omega, by omega⟩] at hok
  omega

/-- Witness of C4, amended: the receipt of `TestCalculateReceiptPoint` in its
final state has prices 1 and scores 116. -/
theorem score_nonneg_of_prices_nonneg_witness :
    calculatePointsFromReceipt sampleEnv fullTestReceipt = .ok 116 ∧ (0 : Int) ≤ 116 :=
  ⟨by decide!,
    score_nonneg_of_prices_nonneg sampleEnv fullTestReceipt 116 (by decide!) (by decide!)
      (by decide!)⟩

/-! ## C5: the time rule -/

/-- C5: the window of the time rule is open at both ends.  For a receipt with
a parseable date, the score with a purchase time that parses to `t` is the
value of `points` before the time rule, plus 10 (in `int64`) exactly when `t`
is strictly after 14:00 and strictly before 16:00; so `14:00` and `16:00` earn
nothing, `14:01` and `15:59` earn 10. -/
theorem time_rule_window_exclusive (env : GoEnv) (r : Receipt) (d : GoTime)
    (hd : parseDate r.PurchaseDate = some d) :
    (∀ (purchaseTime : String) (t : GoTime), parseTime purchaseTime = some t →
      calculatePointsFromReceipt env { r with PurchaseTime := purchaseTime }
        = .ok (if 14 * 60 < t.hour * 60 + t.min ∧ t.hour * 60 + t.min < 16 * 60 then
            add64 (dateRule d (pointsBeforeDate env r.Retailer r.Total r.Items)) 10
          else dateRule d (pointsBeforeDate env r.Retailer r.Total r.Items)))
    ∧ calculatePointsFromReceipt env { r with PurchaseTime := "14:00" }
        = .ok (dateRule d (pointsBeforeDate env r.Retailer r.Total r.Items))
    ∧ calculatePointsFromReceipt env { r with PurchaseTime := "16:00" }
        = .ok (dateRule d (pointsBeforeDate env r.Retailer r.Total r.Items))
    ∧ calculatePointsFromReceipt env { r with PurchaseTime := "14:01" }
        = .ok (add64 (dateRule d (pointsBeforeDate env r.Retailer r.Total r.Items)) 10)
    ∧ calculatePointsFromReceipt env { r with PurchaseTime := "15:59" }
        = .ok (add64 (dateRule d (pointsBeforeDate env r.Retailer r.Total r.Items)) 10) := by
  have key : ∀ (purchaseTime : String) (t : GoTime), parseTime purchaseTime = some t →
      calculatePointsFromReceipt env { r with PurchaseTime := purchaseTime }
        = .ok (if 14 * 60 < t.hour * 60 + t.min ∧ t.hour * 60 + t.min < 16 * 60 then
            add64 (dateRule d (pointsBeforeDate env r.Retailer r.Total r.Items)) 10
          else dateRule d (pointsBeforeDate env r.Retailer r.Total r.Items)) := by
    intro purchaseTime t ht
    rw [calculatePointsFromReceipt_eq]
    simp only [hd, ht, timeRule]
    by_cases hw : 14 * 60 < t.hour * 60 + t.min ∧ t.hour * 60 + t.min < 16 * 60
    · rw [if_pos ((window_iff ht).mpr hw), if_pos hw]
    · rw [if_neg (fun h => hw ((window_iff ht).mp h)), if_neg hw]
  refine ⟨key, ?_, ?_, ?_, ?_⟩
  · exact key "14:00" ⟨0, 1, 1, 14, 0⟩ (by decide)
  · exact key "16:00" ⟨0, 1, 1, 16, 0⟩ (by decide)
  · exact key "14:01" ⟨0, 1, 1, 14, 1⟩ (by decide)
  · exact key "15:59" ⟨0, 1, 1, 15, 59⟩ (by decide)

/-- Witness of C5: the receipt of the tests, bought at 14:01, scores 10 more
than at 14:00. -/
theorem time_rule_window_exclusive_witness :
    parseDate testReceipt.PurchaseDate = some ⟨1999, 1, 20, 0, 0⟩
    ∧ calculatePointsFromReceipt sampleEnv { testReceipt with PurchaseTime := "14:00" } = .ok 12
    ∧ calculatePointsFromReceipt sampleEnv { testReceipt with PurchaseTime := "14:01" } = .ok 22 :=
  ⟨by decide,
    ((time_rule_window_exclusive sampleEnv testReceipt ⟨1999, 1, 20, 0, 0⟩
      (by decide)).2.1).trans (by decide!),
    ((time_rule_window_exclusive sampleEnv testReceipt ⟨1999, 1, 20, 0, 0⟩
      (by decide)).2.2.2.1).trans (by decide!)⟩

/-! ## C6: validation -/

/-- C6: `validateReceipt` reports the first failing rule, in the order date,
time, total, items, and returns no error exactly when the four rules pass. -/
theorem validateReceipt_first_failing_rule (r : Receipt) :
    (validateReceipt r = .error "invalid purchase date format"
        ↔ parseDate r.PurchaseDate = none)
    ∧ (parseDate r.PurchaseDate ≠ none →
        (validateReceipt r = .error "invalid purchase time format"
          ↔ parseTime r.PurchaseTime = none))
    ∧ (parseDate r.PurchaseDate ≠ none → parseTime r.PurchaseTime ≠ none →
        (validateReceipt r = .error "invalid total price" ↔ r.Total < 0))
    ∧ (parseDate r.PurchaseDate ≠ none → parseTime r.PurchaseTime ≠ none → ¬ r.Total < 0 →
        (validateReceipt r = .error "items can not be empty" ↔ r.Items = []))
    ∧ (validateReceipt r = .ok ()
        ↔ parseDate r.PurchaseDate ≠ none ∧ parseTime r.PurchaseTime ≠ none
          ∧ ¬ r.Total < 0 ∧ r.Items ≠ []) := by
  unfold validateReceipt
  cases hd : parseDate r.PurchaseDate with
  | none => simp
  | some d =>
    cases ht : parseTime r.PurchaseTime with
    | none => simp
    | some t =>
      by_cases h0 : r.Total < 0
      · simp [h0]
      · cases hi : r.Items with
        | nil => simp [h0]
        | cons a l => simp [h0]

/-! ## C7 to C9: the service and the store -/

/-- C7: when `validateReceipt` rejects the receipt, `ProcessReceipt` returns no
identifier but an error whose message contains the reason of the validator,
and leaves the service, hence the store, as it was. -/
theorem ProcessReceipt_rejects_atomically (s : ReceiptService) (newUUuid : UUID) (r : Receipt)
    (reason : String) (h : validateReceipt r = .error reason) :
    s.ProcessReceipt newUUuid r = (s, .error ("invalid receipt data:  " ++ reason))
    ∧ List.IsInfix reason.data ("invalid receipt data:  " ++ reason).data
    ∧ (s.ProcessReceipt newUUuid r).1.receiptStore.receiptStoreMap
        = s.receiptStore.receiptStoreMap := by
  have h1 : s.ProcessReceipt newUUuid r = (s, .error ("invalid receipt data:  " ++ reason)) := by
    unfold ReceiptService.ProcessReceipt
    rw [h]
  refine ⟨h1, ?_, by rw [h1]⟩
  rw [String.data_append]
  exact (List.suffix_append _ _).isInfix

/-- Witness of C7: the receipt without items of the tests is rejected, with the
message of the items rule, whatever the store holds. -/
theorem ProcessReceipt_rejects_atomically_witness :
    validateReceipt noItemsReceipt = .error "items can not be empty"
    ∧ (⟨InitDB⟩ : ReceiptService).ProcessReceipt 7 noItemsReceipt
        = (⟨InitDB⟩, .error ("invalid receipt data:  " ++ "items can not be empty")) :=
  ⟨by decide!,
    (ProcessReceipt_rejects_atomically ⟨InitDB⟩ 7 noItemsReceipt "items can not be empty"
      (by decide!)).1⟩

/-- C8: after `ProcessReceipt` has accepted a receipt and returned the
identifier, `CalculatePoints` on that identifier succeeds with the value
`calculatePointsFromReceipt` gives on the receipt, and `GetReceipt` returns
the receipt. -/
theorem ProcessReceipt_round_trip (env : GoEnv) (s : ReceiptService) (newUUuid : UUID)
    (r : Receipt) (h : validateReceipt r = .ok ()) :
    (s.ProcessReceipt newUUuid r).2 = .ok newUUuid
    ∧ (∃ points, calculatePointsFromReceipt env r = .ok points
        ∧ (s.ProcessReceipt newUUuid r).1.CalculatePoints env newUUuid = .ok points)
    ∧ (s.ProcessReceipt newUUuid r).1.GetReceipt newUUuid = .ok r := by
  have hp : s.ProcessReceipt newUUuid r
      = (⟨(s.receiptStore.SaveReceipt newUUuid r).1⟩, .ok newUUuid) := by
    unfold ReceiptService.ProcessReceipt
    rw [h]
    rfl
  have hread : (s.receiptStore.SaveReceipt newUUuid r).1.ReadReceipt newUUuid = .ok r := by
    simp [DBHandler.SaveReceipt, DBHandler.ReadReceipt]
  obtain ⟨hd, ht, _, _⟩ := (validateReceipt_ok_iff r).mp h
  obtain ⟨d, hd⟩ := Option.ne_none_iff_exists'.mp hd
  obtain ⟨t, ht⟩ := Option.ne_none_iff_exists'.mp ht
  have hcalc := calculatePointsFromReceipt_eq env r
  rw [hd, ht] at hcalc
  simp only at hcalc
  refine ⟨by rw [hp], ⟨_, hcalc, ?_⟩, ?_⟩
  · rw [hp]
    simp only [ReceiptService.CalculatePoints, hread, hcalc]
  · rw [hp]
    simp only [ReceiptService.GetReceipt, hread]

/-- Witness of C8: the receipt of `TestProcessReceiptService` is accepted, and
the empty store returns it under the identifier it was saved with. -/
theorem ProcessReceipt_round_trip_witness :
    validateReceipt validReceipt = .ok ()
    ∧ ((⟨InitDB⟩ : ReceiptService).ProcessReceipt 7 validReceipt).1.GetReceipt 7
        = .ok validReceipt :=
  ⟨by decide!, (ProcessReceipt_round_trip sampleEnv ⟨InitDB⟩ 7 validReceipt (by decide!)).2.2⟩

/-- C9: for an identifier that is not a key of the store, `ReadReceipt` fails
with `cannot find receipt with this ID`, and `CalculatePoints` returns that
error, not a points value. -/
theorem CalculatePoints_not_found (env : GoEnv) (s : ReceiptService) (receiptId : UUID)
    (h : s.receiptStore.receiptStoreMap receiptId = none) :
    s.receiptStore.ReadReceipt receiptId = .error "cannot find receipt with this ID"
    ∧ s.CalculatePoints env receiptId = .error "cannot find receipt with this ID"
    ∧ ¬ ∃ points, s.CalculatePoints env receiptId = .ok points := by
  have hread : s.receiptStore.ReadReceipt receiptId
      = .error "cannot find receipt with this ID" := by
    unfold DBHandler.ReadReceipt
    rw [h]
  have hcalc : s.CalculatePoints env receiptId = .error "cannot find receipt with this ID" := by
    unfold ReceiptService.CalculatePoints
    rw [hread]
  refine ⟨hread, hcalc, ?_⟩
  rintro ⟨points, hp⟩
  rw [hcalc] at hp
  cases hp

/-- Witness of C9: the empty store has no key. -/
theorem CalculatePoints_not_found_witness :
    InitDB.receiptStoreMap 7 = none
    ∧ (⟨InitDB⟩ : ReceiptService).CalculatePoints sampleEnv 7
        = .error "cannot find receipt with this ID" :=
  ⟨rfl, (CalculatePoints_not_found sampleEnv ⟨InitDB⟩ 7 rfl).2.1⟩

/-! ## C10: the errors of scoring -/

/-- C10: `calculatePointsFromReceipt` parses the date and the time itself.  It
fails exactly when one of them does not parse, with `cannot parse date to
number` when the date does not (whatever the time), with `invalid time
format` when only the time does not; no other field can make it fail. -/
theorem calculatePointsFromReceipt_fails_iff (env : GoEnv) (r : Receipt) :
    ((∃ msg, calculatePointsFromReceipt env r = .error msg)
        ↔ parseDate r.PurchaseDate = none ∨ parseTime r.PurchaseTime = none)
    ∧ (parseDate r.PurchaseDate = none →
        calculatePointsFromReceipt env r = .error "cannot parse date to number")
    ∧ (parseDate r.PurchaseDate ≠ none → parseTime r.PurchaseTime = none →
        calculatePointsFromReceipt env r = .error "invalid time format")
    ∧ ((∃ points, calculatePointsFromReceipt env r = .ok points)
        ↔ parseDate r.PurchaseDate ≠ none ∧ parseTime r.PurchaseTime ≠ none) := by
  rw [calculatePointsFromReceipt_eq]
  cases hd : parseDate r.PurchaseDate with
  | none => simp
  | some d =>
    cases ht : parseTime r.PurchaseTime with
    | none => simp
    | some t => simp

/-! ## The service: lemmas -/

theorem ProcessReceipt_of_valid (s : ReceiptService) (newUUuid : UUID) {r : Receipt}
    (h : validateReceipt r = .ok ()) :
    s.ProcessReceipt newUUuid r
      = (⟨(s.receiptStore.SaveReceipt newUUuid r).1⟩, .ok newUUuid) := by
  unfold ReceiptService.ProcessReceipt
  rw [h]
  rfl

theorem ProcessReceipt_of_invalid (s : ReceiptService) (newUUuid : UUID) {r : Receipt}
    {reason : String} (h : validateReceipt r = .error reason) :
    s.ProcessReceipt newUUuid r = (s, .error ("invalid receipt data:  " ++ reason)) := by
  unfold ReceiptService.ProcessReceipt
  rw [h]

theorem validateReceipt_cases (r : Receipt) :
    validateReceipt r = .ok () ∨ ∃ reason, validateReceipt r = .error reason := by
  cases h : validateReceipt r with
  | ok u => left; rfl
  | error e => right; exact ⟨e, rfl⟩

theorem scoring_of_valid (env : GoEnv) {r : Receipt} (h : validateReceipt r = .ok ()) :
    ∃ points, calculatePointsFromReceipt env r = .ok points := by
  obtain ⟨hd, ht, _, _⟩ := (validateReceipt_ok_iff r).mp h
  exact (calculatePointsFromReceipt_ok_iff env r).mpr ⟨hd, ht⟩

/-- `ProcessReceipt` keeps the store valid and removes no key. -/
theorem ProcessReceipt_preserves (s : ReceiptService) (newUUuid : UUID) (r : Receipt)
    (hs : StoreValid s) :
    StoreValid (s.ProcessReceipt newUUuid r).1
    ∧ ∀ id, s.receiptStore.receiptStoreMap id ≠ none →
        (s.ProcessReceipt newUUuid r).1.receiptStore.receiptStoreMap id ≠ none := by
  rcases validateReceipt_cases r with h | ⟨reason, h⟩
  · rw [ProcessReceipt_of_valid s newUUuid h]
    constructor
    · intro id r' hr'
      simp only [DBHandler.SaveReceipt] at hr'
      split_ifs at hr' with hid
      · rw [← Option.some.inj hr']
        exact h
      · exact hs id r' hr'
    · intro id hid
      simp only [DBHandler.SaveReceipt]
      split_ifs
      · exact Option.some_ne_none _
      · exact hid
  · rw [ProcessReceipt_of_invalid s newUUuid h]
    exact ⟨hs, fun _ hid => hid⟩

/-- After a sequence of calls the store is valid, has kept its keys, and has
every identifier the calls returned. -/
theorem serve_spec : ∀ (calls : List (UUID × Receipt)) (s : ReceiptService), StoreValid s →
    StoreValid (s.serve calls).1
    ∧ (∀ id, s.receiptStore.receiptStoreMap id ≠ none →
        (s.serve calls).1.receiptStore.receiptStoreMap id ≠ none)
    ∧ ∀ id ∈ (s.serve calls).2, (s.serve calls).1.receiptStore.receiptStoreMap id ≠ none := by
  intro calls
  induction calls with
  | nil =>
    intro s hs
    exact ⟨hs, fun _ h => h, fun id hid => by simp [ReceiptService.serve] at hid⟩
  | cons call calls ih =>
    intro s hs
    obtain ⟨newUUuid, r⟩ := call
    obtain ⟨hv, hk⟩ := ProcessReceipt_preserves s newUUuid r hs
    rcases validateReceipt_cases r with h | ⟨reason, h⟩
    · have hp := ProcessReceipt_of_valid s newUUuid h
      rw [hp] at hv hk
      obtain ⟨h1, h2, h3⟩ := ih _ hv
      simp only [ReceiptService.serve, hp]
      refine ⟨h1, fun id hid => h2 id (hk id hid), ?_⟩
      intro id hid
      rcases List.mem_cons.mp hid with rfl | hid
      · apply h2
        simp [DBHandler.SaveReceipt]
      · exact h3 id hid
    · have hp := ProcessReceipt_of_invalid s newUUuid h
      rw [hp] at hv hk
      obtain ⟨h1, h2, h3⟩ := ih _ hv
      simp only [ReceiptService.serve, hp]
      exact ⟨h1, h2, h3⟩

theorem CalculatePoints_of_valid (env : GoEnv) (s : ReceiptService) (hs : StoreValid s)
    (id : UUID) (hid : s.receiptStore.receiptStoreMap id ≠ none) :
    ∃ points, s.CalculatePoints env id = .ok points := by
  obtain ⟨r, hr⟩ := Option.ne_none_iff_exists'.mp hid
  obtain ⟨points, hp⟩ := scoring_of_valid env (hs id r hr)
  refine ⟨points, ?_⟩
  simp only [ReceiptService.CalculatePoints, DBHandler.ReadReceipt, hr, hp]

/-! ## The letters of the retailer -/

theorem foldl_count_wrap64 (env : GoEnv) :
    ∀ (l : List Char) (x : Int),
      l.foldl (fun count c => if isLetter env c then add64 count 1 else count) (wrap64 x)
        = wrap64 (x + (l.countP (isLetter env) : Nat)) := by
  intro l
  induction l with
  | nil => intro x; simp [wrap64_idem]
  | cons c l ih =>
    intro x
    rw [List.foldl_cons, List.countP_cons]
    split_ifs with hc
    · rw [add64, wrap64_add_left, ih]
      congr 1
      push_cast
      ring
    · rw [ih]
      simp

/-- The count is the number of letters, as an `int64`. -/
theorem countAlphanNumericCharacters_eq (env : GoEnv) (s : String) :
    countAlphanNumericCharacters env s = wrap64 (s.data.countP (isLetter env) : Nat) := by
  have h := foldl_count_wrap64 env s.data 0
  rw [zero_add] at h
  rw [← h]
  rfl

theorem countAlphanNumericCharacters_inInt64 (env : GoEnv) (s : String) :
    InInt64 (countAlphanNumericCharacters env s) := by
  rw [countAlphanNumericCharacters_eq]
  exact wrap64_inInt64 _

/-- On the runes up to U+00FF `unicode.IsLetter` is the Latin-1 table. -/
theorem isLetter_latin1 (env : GoEnv) (c : Char) (h : c.toNat ≤ 0xFF) :
    isLetter env c = isLetterLatin1 c := by
  unfold isLetter
  rw [if_pos h]

/-- Among the ASCII characters the letters are `A` to `Z` and `a` to `z`. -/
theorem isLetter_ascii (env : GoEnv) (c : Char) (h : c.toNat < 128) :
    isLetter env c = true
      ↔ ('A'.toNat ≤ c.toNat ∧ c.toNat ≤ 'Z'.toNat) ∨ ('a'.toNat ≤ c.toNat ∧ c.toNat ≤ 'z'.toNat) := by
  rw [isLetter_latin1 env c (by omega)]
  unfold isLetterLatin1
  have hA : 'A'.toNat = 65 := rfl
  have hZ : 'Z'.toNat = 90 := rfl
  have ha : 'a'.toNat = 97 := rfl
  have hz : 'z'.toNat = 122 := rfl
  simp only [hA, hZ, ha, hz, Bool.decide_and, Bool.decide_or, Bool.or_eq_true, Bool.and_eq_true,
    decide_eq_true_eq]
  omega

/-- On a string of runes up to U+00FF the count does not depend on the environment. -/
theorem countAlphanNumericCharacters_latin1 (env : GoEnv) (s : String)
    (h : ∀ c ∈ s.data, c.toNat ≤ 0xFF) :
    countAlphanNumericCharacters env s = wrap64 (s.data.countP isLetterLatin1 : Nat) := by
  rw [countAlphanNumericCharacters_eq]
  congr 2
  exact List.countP_congr (fun c hc => by rw [isLetter_latin1 env c (h c hc)])

theorem count_TestRetailer (env : GoEnv) :
    countAlphanNumericCharacters env "TestRetailer" = 12 := by
  rw [countAlphanNumericCharacters_latin1 env "TestRetailer" (by decide)]
  decide

/-! ## Strings: lemmas -/

/-- White space around a string does not change what `strings.TrimSpace` returns. -/
theorem trimSpace_append (pre s post : String) (hpre : IsBlank pre) (hpost : IsBlank post) :
    trimSpace (pre ++ s ++ post) = trimSpace s := by
  unfold trimSpace
  congr 2
  rw [String.data_append, String.data_append, List.append_assoc,
    List.dropWhile_append_of_pos hpre, List.dropWhile_append]
  split_ifs with h
  · have hs : s.data.dropWhile isSpace = [] := List.isEmpty_iff.mp h
    rw [hs, List.dropWhile_eq_nil_iff.mpr hpost]
  · rw [List.reverse_append]
    exact List.dropWhile_append_of_pos (fun c hc => hpost c (List.mem_reverse.mp hc))

/-- `strings.TrimSpace` of white space is the empty string. -/
theorem trimSpace_of_isBlank (s : String) (h : IsBlank s) : trimSpace s = "" := by
  unfold trimSpace
  rw [List.dropWhile_eq_nil_iff.mpr h]
  rfl

theorem utf8Len_ascii : ∀ l : List Char, (∀ c ∈ l, c.toNat < 128) → String.utf8Len l = l.length := by
  intro l
  induction l with
  | nil => intro _; rfl
  | cons c l ih =>
    intro h
    rw [String.utf8Len_cons, ih (fun x hx => h x (List.mem_cons_of_mem _ hx)), List.length_cons]
    have hc : c.toNat < 128 := h c (List.mem_cons_self _ _)
    have : c.utf8Size = 1 := by
      unfold Char.utf8Size
      have : c.val ≤ UInt32.ofNatCore 0x7F (by decide) := by
        show c.val.toNat ≤ 127
        unfold Char.toNat at hc
        omega
      simp only
      rw [if_pos this]
    rw [this]

/-- Go `len` of an ASCII string is its number of characters. -/
theorem goLen_ascii (s : String) (h : ∀ c ∈ s.data, c.toNat < 128) : goLen s = s.length := by
  unfold goLen
  rw [show s.utf8ByteSize = String.utf8Len s.data from rfl, utf8Len_ascii s.data h]
  rfl

/-! ## The points of the descriptions, item by item -/

theorem itemPoints_eq (env : GoEnv) (item : Item) :
    itemPoints env item = if descriptionCounts item then pricePoints env item else 0 := rfl

theorem descriptionStep_itemPoints (env : GoEnv) (x : Int) (item : Item) :
    descriptionStep env (wrap64 x) item = wrap64 (x + itemPoints env item) := by
  unfold descriptionStep itemPoints descriptionCounts
  simp only
  split_ifs
  · rw [add64, wrap64_add_left]
  · rw [add_zero]

theorem foldl_descriptionStep_itemPoints (env : GoEnv) :
    ∀ (items : List Item) (x : Int),
      items.foldl (descriptionStep env) (wrap64 x)
        = wrap64 (x + (items.map (itemPoints env)).sum) := by
  intro items
  induction items with
  | nil => intro x; simp
  | cons item items ih =>
    intro x
    rw [List.foldl_cons, descriptionStep_itemPoints, ih, List.map_cons, List.sum_cons, add_assoc]

/-- The loop over the items computes the `int` sum of what the items add. -/
theorem pointsByDescription_eq_sum (env : GoEnv) (items : List Item) :
    pointsByDescription env items = wrap64 ((items.map (itemPoints env)).sum) := by
  have h := foldl_descriptionStep_itemPoints env items 0
  rw [zero_add] at h
  rw [← h]
  rfl

/-- Only the items the loop counts add to the sum. -/
theorem sum_itemPoints_eq_filter (env : GoEnv) (items : List Item) :
    (items.map (itemPoints env)).sum
      = ((items.filter (fun item => decide (descriptionCounts item))).map
          (pricePoints env)).sum := by
  induction items with
  | nil => rfl
  | cons item items ih =>
    rw [List.map_cons, List.sum_cons, ih, List.filter_cons, itemPoints_eq]
    by_cases hc : descriptionCounts item
    · simp [hc]
    · simp [hc]

/-- When `math.Ceil(price * 0.2)` fits `int64`, the conversion to `int` keeps it. -/
theorem pricePoints_eq_priceCeil (env : GoEnv) (item : Item) (h : InInt64 (priceCeil item)) :
    pricePoints env item = priceCeil item :=
  mathCeil_toInt env _ h

/-! ## Floating point: prices with two decimals -/

theorem binadeExp_lt_of_abs_lt {q : ℚ} (hq : q ≠ 0) {n : Int} (h : |q| < (2 : ℚ) ^ n) :
    binadeExp q < n := by
  have h1 := (binadeExp_spec hq).1
  exact (zpow_lt_zpow_iff_right₀ (by norm_num : (1 : ℚ) < 2)).mp (lt_of_le_of_lt h1 h)

theorem le_binadeExp_of_le_abs {q : ℚ} (hq : q ≠ 0) {n : Int} (h : (2 : ℚ) ^ n ≤ |q|) :
    n ≤ binadeExp q := by
  have h1 := (binadeExp_spec hq).2
  have := (zpow_lt_zpow_iff_right₀ (by norm_num : (1 : ℚ) < 2)).mp (lt_of_le_of_lt h h1)
  omega

/-- The relative error of rounding, for a rational in the range of the normal
`float64` values. -/
theorem roundFloat64_rel_error {q : ℚ} (h : (2 : ℚ) ^ (-1022 : Int) ≤ |q|) :
    |roundFloat64 q - q| ≤ |q| * (2 : ℚ) ^ (-53 : Int) := by
  have hq : q ≠ 0 := by
    rintro rfl
    rw [abs_zero] at h
    exact absurd h (not_le.mpr (zpow_pos (by norm_num) _))
  have he : max (binadeExp q) (-1022) = binadeExp q := max_eq_left (le_binadeExp_of_le_abs hq h)
  have herr := roundFloat64_error q
  rw [he] at herr
  have h1 := (binadeExp_spec hq).1
  calc |roundFloat64 q - q| ≤ (2 : ℚ) ^ (binadeExp q - 52) / 2 := herr
    _ = (2 : ℚ) ^ (binadeExp q) * (2 : ℚ) ^ (-53 : Int) := by
        rw [show binadeExp q - 52 = binadeExp q + (-52) by ring, zpow_add₀ (by norm_num)]
        norm_num
        ring
    _ ≤ |q| * (2 : ℚ) ^ (-53 : Int) :=
        mul_le_mul_of_nonneg_right h1 (zpow_pos (by norm_num) _).le

/-- An integer below `2 ^ 53` in magnitude is a `float64`. -/
theorem roundFloat64_intCast_of_lt (m : Int) (h : |m| < 2 ^ 53) : roundFloat64 (m : ℚ) = m := by
  unfold roundFloat64
  split_ifs with h0
  · exact h0.symm
  · simp only
    have hlt : |(m : ℚ)| < (2 : ℚ) ^ (53 : Int) := by
      have : ((|m| : Int) : ℚ) < ((2 ^ 53 : Int) : ℚ) := by exact_mod_cast h
      rw [Int.cast_abs] at this
      norm_num at this ⊢
      exact this
    have he := binadeExp_lt_of_abs_lt h0 hlt
    have he' : max (binadeExp (m : ℚ)) (-1022) - 52 ≤ 0 := by omega
    generalize max (binadeExp (m : ℚ)) (-1022) - 52 = e at he'
    obtain ⟨k, hk⟩ := Int.eq_ofNat_of_zero_le (show 0 ≤ -e by omega)
    have hek : e = -(k : Int) := by omega
    have h2 : ((2 : ℚ) ^ k) ≠ 0 := pow_ne_zero _ (by norm_num)
    have hdiv : (m : ℚ) / (2 : ℚ) ^ e = ((m * 2 ^ k : Int) : ℚ) := by
      rw [hek, zpow_neg, zpow_natCast]
      push_cast
      field_simp
    rw [hdiv, roundHalfEven_intCast, hek, zpow_neg, zpow_natCast]
    push_cast
    field_simp

theorem roundHalfEven_add_small (m : Int) (δ : ℚ) (h0 : 0 ≤ δ) (h1 : δ < 1 / 2) :
    roundHalfEven ((m : ℚ) + δ) = m := by
  have hf : ⌊(m : ℚ) + δ⌋ = m := by
    rw [Int.floor_eq_iff]
    constructor <;> linarith
  unfold roundHalfEven
  simp only [hf]
  rw [if_pos (by linarith)]

/-- The constant `0.2` of the code is `1/5` times `1 + 2 ^ (-54)`. -/
theorem float64OfDecimal_fifth :
    float64OfDecimal (1 / 5) = 1 / 5 * (1 + 1 / 18014398509481984) := by decide!

/-- An integer `n` from 1 to `2 ^ 52`, times `1 + 2 ^ (-54)`, rounds to `n`:
the product `5n * 0.2` of `float64` is `n`. -/
theorem roundFloat64_mul_one_add_eps (n : Nat) (h1 : 1 ≤ n) (h2 : n < 2 ^ 52) :
    roundFloat64 ((n : ℚ) * (1 + 1 / 18014398509481984)) = n := by
  have hn1 : (1 : ℚ) ≤ n := by exact_mod_cast h1
  have hn2 : (n : ℚ) < 4503599627370496 := by exact_mod_cast h2
  set x : ℚ := (n : ℚ) * (1 + 1 / 18014398509481984) with hx
  have hxpos : 0 < x := by positivity
  have hx1 : (1 : ℚ) ≤ x := by rw [hx]; nlinarith
  have hx2 : x < 9007199254740992 := by rw [hx]; nlinarith
  have hx0 : x ≠ 0 := hxpos.ne'
  have he0 : 0 ≤ binadeExp x := le_binadeExp_of_le_abs hx0 (by
    rw [abs_of_pos hxpos, zpow_zero]; exact hx1)
  have he1 : binadeExp x < 53 := binadeExp_lt_of_abs_lt hx0 (by
    rw [abs_of_pos hxpos]
    norm_num
    exact hx2)
  have hup := (binadeExp_spec hx0).2
  rw [abs_of_pos hxpos] at hup
  unfold roundFloat64
  rw [if_neg hx0]
  simp only
  rw [max_eq_left (by omega)]
  obtain ⟨k, hk⟩ := Int.eq_ofNat_of_zero_le (show 0 ≤ 52 - binadeExp x by omega)
  have hek : binadeExp x - 52 = -(k : Int) := by omega
  have hek' : binadeExp x + 1 = 53 - (k : Int) := by omega
  rw [hek' ] at hup
  rw [hek, zpow_neg, zpow_natCast]
  have h2k : (0 : ℚ) < (2 : ℚ) ^ k := by positivity
  have hup' : x * (2 : ℚ) ^ k < 9007199254740992 := by
    rw [zpow_sub₀ (by norm_num), zpow_natCast, lt_div_iff₀ h2k] at hup
    norm_num at hup
    exact hup
  have hdiv : x / ((2 : ℚ) ^ k)⁻¹
      = ((n * 2 ^ k : Int) : ℚ) + (n : ℚ) * (2 : ℚ) ^ k / 18014398509481984 := by
    rw [hx]
    push_cast
    field_simp
    ring
  have hm : (0 : ℚ) ≤ (n : ℚ) * (2 : ℚ) ^ k := by positivity
  have hsmall : (n : ℚ) * (2 : ℚ) ^ k / 18014398509481984 < 1 / 2 := by
    have : (n : ℚ) * (2 : ℚ) ^ k ≤ x * (2 : ℚ) ^ k := by
      apply mul_le_mul_of_nonneg_right _ h2k.le
      rw [hx]
      nlinarith
    rw [div_lt_iff₀ (by norm_num)]
    linarith
  rw [hdiv, roundHalfEven_add_small _ _ (by positivity) hsmall]
  push_cast
  field_simp

/-- For a price of `k` cents, up to `10 ^ 15` cents, read from its decimal
string, the `float64` computation `math.Ceil(price * 0.2)` gives the ceiling
of the exact `k / 500`: the rounding errors of `float64` do not show. -/
theorem priceCeil_two_decimals (k : Nat) (hk : k ≤ 10 ^ 15) (description : String) :
    priceCeil ⟨description, float64OfDecimal ((k : ℚ) / 100)⟩ = ⌈(k : ℚ) / 500⌉ := by
  unfold priceCeil fmul
  simp only
  rw [float64OfDecimal_fifth]
  unfold float64OfDecimal
  have hkq : (k : ℚ) ≤ 1000000000000000 := by exact_mod_cast hk
  rcases Nat.eq_zero_or_pos k with rfl | hpos
  · have h0 : roundFloat64 0 = 0 := by unfold roundFloat64; rw [if_pos rfl]
    simp [h0]
  have hk1 : (1 : ℚ) ≤ k := by exact_mod_cast hpos
  by_cases hdvd : 500 ∣ k
  · obtain ⟨n, rfl⟩ := hdvd
    have hn1 : 1 ≤ n := by omega
    have hn2 : n < 2 ^ 52 := by
      have : 500 * n ≤ 10 ^ 15 := hk
      have h52 : (2 : Nat) ^ 52 = 4503599627370496 := by norm_num
      omega
    have e1 : ((500 * n : Nat) : ℚ) / 100 = ((5 * n : Int) : ℚ) := by
      push_cast
      ring
    have h5 : |(5 * n : Int)| < 2 ^ 53 := by
      rw [abs_of_nonneg (by positivity)]
      have h52 : (2 : Nat) ^ 52 = 4503599627370496 := by norm_num
      have h53 : (2 : Int) ^ 53 = 9007199254740992 := by norm_num
      omega
    rw [e1, roundFloat64_intCast_of_lt _ h5]
    have e2 : ((5 * n : Int) : ℚ) * (1 / 5 * (1 + 1 / 18014398509481984))
        = (n : ℚ) * (1 + 1 / 18014398509481984) := by
      push_cast
      ring
    rw [e2, roundFloat64_mul_one_add_eps n hn1 hn2]
    have e3 : ((500 * n : Nat) : ℚ) / 500 = ((n : Int) : ℚ) := by
      push_cast
      ring
    rw [e3, Int.ceil_intCast]
    exact Int.ceil_natCast n
  · set a : ℚ := (k : ℚ) / 100 with ha
    set q : ℚ := (k : ℚ) / 500 with hq
    have hapos : 0 < a := by positivity
    have hlow : (2 : ℚ) ^ (-1022 : Int) ≤ 1 / 1024 := by
      have : (2 : ℚ) ^ (-1022 : Int) ≤ (2 : ℚ) ^ (-10 : Int) :=
        zpow_le_zpow_right₀ (by norm_num) (by norm_num)
      calc (2 : ℚ) ^ (-1022 : Int) ≤ (2 : ℚ) ^ (-10 : Int) := this
        _ = 1 / 1024 := by norm_num
    have h53 : (2 : ℚ) ^ (-53 : Int) = 1 / 9007199254740992 := by norm_num
    -- the price as a `float64`
    have hp := roundFloat64_rel_error (q := a) (by
      rw [abs_of_pos hapos]
      have : (1 : ℚ) / 100 ≤ a := by rw [ha]; linarith
      exact le_trans hlow (le_trans (by norm_num) this))
    rw [abs_of_pos hapos, h53, abs_le] at hp
    set p : ℚ := roundFloat64 a with hpdef
    have hppos : 0 < p := by linarith [hp.1]
    -- the product as a `float64`
    set x : ℚ := p * (1 / 5 * (1 + 1 / 18014398509481984)) with hxdef
    have hxpos : 0 < x := by positivity
    have hxlow : (1 : ℚ) / 1024 ≤ x := by
      have : (1 : ℚ) / 100 ≤ a := by rw [ha]; linarith
      rw [hxdef]
      linarith [hp.1]
    have hy := roundFloat64_rel_error (q := x) (by
      rw [abs_of_pos hxpos]
      exact le_trans hlow hxlow)
    rw [abs_of_pos hxpos, h53, abs_le] at hy
    -- the ceiling of the exact quotient
    have hq5 : a = 5 * q := by rw [ha, hq]; ring
    have hqle : q ≤ 2000000000000 := by rw [hq]; linarith
    have hqpos : 0 < q := by positivity
    obtain ⟨hc1, hc2⟩ := Int.ceil_eq_iff.mp (rfl : ⌈q⌉ = ⌈q⌉)
    have hkn : (k : ℚ) = 500 * q := by rw [hq]; ring
    have hi1 : (500 * (⌈q⌉ - 1) : Int) < (k : Int) := by
      have : ((500 * (⌈q⌉ - 1) : Int) : ℚ) < ((k : Int) : ℚ) := by
        push_cast
        linarith
      exact_mod_cast this
    have hi2 : (k : Int) ≤ 500 * ⌈q⌉ := by
      have : ((k : Int) : ℚ) ≤ ((500 * ⌈q⌉ : Int) : ℚ) := by
        push_cast
        linarith
      exact_mod_cast this
    have hi3 : (k : Int) ≠ 500 * ⌈q⌉ := by
      intro h
      apply hdvd
      have hnn : 0 ≤ ⌈q⌉ := Int.ceil_nonneg hqpos.le
      obtain ⟨m, hm⟩ := Int.eq_ofNat_of_zero_le hnn
      rw [hm] at h
      exact ⟨m, by exact_mod_cast h⟩
    have hq1 : q ≤ (⌈q⌉ : ℚ) - 1 / 500 := by
      have : (k : Int) ≤ 500 * ⌈q⌉ - 1 := by omega
      have : ((k : Int) : ℚ) ≤ ((500 * ⌈q⌉ - 1 : Int) : ℚ) := by exact_mod_cast this
      push_cast at this
      linarith
    have hq2 : (⌈q⌉ : ℚ) - 1 + 1 / 500 ≤ q := by
      have : 500 * (⌈q⌉ - 1) + 1 ≤ (k : Int) := by omega
      have : ((500 * (⌈q⌉ - 1) + 1 : Int) : ℚ) ≤ ((k : Int) : ℚ) := by exact_mod_cast this
      push_cast at this
      linarith
    rw [Int.ceil_eq_iff]
    constructor
    · linarith [hy.1, hp.1]
    · linarith [hy.2, hp.2]

/-- The same for the `int` the loop adds, in every environment: the ceiling
fits `int64`. -/
theorem pricePoints_two_decimals (env : GoEnv) (k : Nat) (hk : k ≤ 10 ^ 15)
    (description : String) :
    pricePoints env ⟨description, float64OfDecimal ((k : ℚ) / 100)⟩ = ⌈(k : ℚ) / 500⌉ := by
  have h := priceCeil_two_decimals k hk description
  have hkq : (k : ℚ) ≤ 1000000000000000 := by exact_mod_cast hk
  have h0 : 0 ≤ ⌈(k : ℚ) / 500⌉ := Int.ceil_nonneg (by positivity)
  have h1 : ⌈(k : ℚ) / 500⌉ ≤ 2000000000000 := by
    rw [Int.ceil_le]
    push_cast
    linarith
  rw [pricePoints_eq_priceCeil env _ (by rw [h]; exact ⟨by omega, by omega⟩), h]


/-! ## The score as a function of the items, the date and the total -/

/-- The score in the three cases of the two parsers. -/
theorem score_cases (env : GoEnv) (r : Receipt) :
    (parseDate r.PurchaseDate = none
      ∧ calculatePointsFromReceipt env r = .error "cannot parse date to number")
    ∨ ((∃ d, parseDate r.PurchaseDate = some d) ∧ parseTime r.PurchaseTime = none
      ∧ calculatePointsFromReceipt env r = .error "invalid time format")
    ∨ ∃ d t, parseDate r.PurchaseDate = some d ∧ parseTime r.PurchaseTime = some t
      ∧ calculatePointsFromReceipt env r
        = .ok (wrap64 (countAlphanNumericCharacters env r.Retailer + totalBonus env r.Total
            + 5 * ((r.Items.length / 2 : Nat) : Int) + pointsByDescription env r.Items
            + dayBonus d + timeBonus t)) := by
  cases hd : parseDate r.PurchaseDate with
  | none =>
    left
    refine ⟨rfl, ?_⟩
    rw [calculatePointsFromReceipt_eq, hd]
  | some d =>
    cases ht : parseTime r.PurchaseTime with
    | none =>
      right; left
      refine ⟨⟨d, rfl⟩, rfl, ?_⟩
      rw [calculatePointsFromReceipt_eq, hd, ht]
    | some t =>
      right; right
      exact ⟨d, t, rfl, rfl, score_formula env r d t hd ht⟩

theorem pointsByDescription_append (env : GoEnv) (items : List Item) (a : Item)
    (ha : ¬ descriptionCounts a) :
    pointsByDescription env (items ++ [a]) = pointsByDescription env items := by
  unfold pointsByDescription
  rw [List.foldl_append, List.foldl_cons, List.foldl_nil]
  unfold descriptionStep
  simp only
  exact if_neg ha

/-! ## C11: validation makes scoring succeed -/

/-- C11: a receipt `validateReceipt` accepts is scored without error; hence,
after any sequence of calls of `ProcessReceipt` on the empty store,
`CalculatePoints` succeeds on every identifier a call returned. -/
theorem scoring_succeeds_after_validation (env : GoEnv) :
    (∀ r : Receipt, validateReceipt r = .ok () →
      ∃ points, calculatePointsFromReceipt env r = .ok points)
    ∧ (∀ (s : ReceiptService) (newUUuid : UUID) (r : Receipt) (id : UUID),
        (s.ProcessReceipt newUUuid r).2 = .ok id →
        ∃ points, (s.ProcessReceipt newUUuid r).1.CalculatePoints env id = .ok points)
    ∧ ∀ (calls : List (UUID × Receipt)) (id : UUID),
        id ∈ ((⟨InitDB⟩ : ReceiptService).serve calls).2 →
        ∃ points, ((⟨InitDB⟩ : ReceiptService).serve calls).1.CalculatePoints env id
          = .ok points := by
  refine ⟨fun r h => scoring_of_valid env h, ?_, ?_⟩
  · intro s newUUuid r id hid
    rcases validateReceipt_cases r with h | ⟨reason, h⟩
    · rw [ProcessReceipt_of_valid s newUUuid h] at hid ⊢
      obtain ⟨points, hp⟩ := scoring_of_valid env h
      refine ⟨points, ?_⟩
      have hid' : newUUuid = id := by
        simp only at hid
        exact Except.ok.inj hid
      subst hid'
      simp [ReceiptService.CalculatePoints, DBHandler.ReadReceipt, DBHandler.SaveReceipt, hp]
    · rw [ProcessReceipt_of_invalid s newUUuid h] at hid
      cases hid
  · intro calls id hid
    have hinit : StoreValid ⟨InitDB⟩ := by
      intro id r hr
      simp [InitDB] at hr
    obtain ⟨h1, _, h3⟩ := serve_spec calls ⟨InitDB⟩ hinit
    exact CalculatePoints_of_valid env _ h1 id (h3 id hid)

/-- The tests' receipts served to the empty store: the call with the receipt
without items returns no identifier, the other two return theirs, and both
identifiers are scored. -/
theorem serve_example :
    ((⟨InitDB⟩ : ReceiptService).serve
        [(1, validReceipt), (2, noItemsReceipt), (3, fullTestReceipt)]).2 = [1, 3]
    ∧ ((⟨InitDB⟩ : ReceiptService).serve
        [(1, validReceipt), (2, noItemsReceipt), (3, fullTestReceipt)]).1.CalculatePoints
          sampleEnv 3 = .ok 116 := by
  decide!

/-! ## C12: rule 5, the descriptions -/

/-- C12: for a receipt whose date and time parse, what the items add to the
score is the `int` sum of `int(math.Ceil(item.Price * 0.2))` over exactly the
items whose trimmed description has a length that is not 0 and is a multiple
of 3, and the sum of the integers `math.Ceil(item.Price * 0.2)` when these fit
`int64`.  An item with another length, or with an empty or blank description,
adds nothing; white space around a description changes nothing; the length is
the number of bytes, which for an ASCII string is the number of characters.
For a price of `k` cents, up to `10 ^ 15`, the `float64` product does not
show: the item adds the ceiling of the exact `k / 500`. -/
theorem description_rule (env : GoEnv) (r : Receipt) (d t : GoTime)
    (hd : parseDate r.PurchaseDate = some d) (ht : parseTime r.PurchaseTime = some t) :
    calculatePointsFromReceipt env r
      = .ok (wrap64 (countAlphanNumericCharacters env r.Retailer + totalBonus env r.Total
          + 5 * ((r.Items.length / 2 : Nat) : Int)
          + ((r.Items.filter (fun item => decide (descriptionCounts item))).map
              (pricePoints env)).sum
          + dayBonus d + timeBonus t))
    ∧ pointsByDescription env r.Items
        = wrap64 ((r.Items.filter (fun item => decide (descriptionCounts item))).map
            (pricePoints env)).sum
    ∧ ((∀ item ∈ r.Items, descriptionCounts item → InInt64 (priceCeil item)) →
        pointsByDescription env r.Items
          = wrap64 ((r.Items.filter (fun item => decide (descriptionCounts item))).map
              priceCeil).sum)
    ∧ (∀ item : Item, goLen (trimSpace item.ShortDescription) = 0
          ∨ goLen (trimSpace item.ShortDescription) % 3 ≠ 0 →
        itemPoints env item = 0 ∧ ∀ points, descriptionStep env points item = points)
    ∧ (∀ item : Item, IsBlank item.ShortDescription →
        itemPoints env item = 0 ∧ ∀ points, descriptionStep env points item = points)
    ∧ (∀ (item : Item) (pre post : String), IsBlank pre → IsBlank post →
        itemPoints env { item with ShortDescription := pre ++ item.ShortDescription ++ post }
          = itemPoints env item)
    ∧ (∀ price : Float64, itemPoints env ⟨" 123 ", price⟩ = itemPoints env ⟨"123", price⟩)
    ∧ (∀ s : String, (∀ c ∈ s.data, c.toNat < 128) → goLen s = s.length)
    ∧ (∀ (k : Nat) (description : String), k ≤ 10 ^ 15 →
        pricePoints env ⟨description, float64OfDecimal ((k : ℚ) / 100)⟩ = ⌈(k : ℚ) / 500⌉) := by
  have hsum := pointsByDescription_eq_sum env r.Items
  rw [sum_itemPoints_eq_filter] at hsum
  have hno : ∀ item : Item, ¬ descriptionCounts item →
      itemPoints env item = 0 ∧ ∀ points, descriptionStep env points item = points := by
    intro item hc
    constructor
    · rw [itemPoints_eq, if_neg hc]
    · intro points
      unfold descriptionStep
      simp only
      exact if_neg hc
  have htrim : ∀ (item : Item) (pre post : String), IsBlank pre → IsBlank post →
      itemPoints env { item with ShortDescription := pre ++ item.ShortDescription ++ post }
        = itemPoints env item := by
    intro item pre post hpre hpost
    unfold itemPoints descriptionCounts
    simp only [trimSpace_append pre item.ShortDescription post hpre hpost]
  refine ⟨?_, hsum, ?_, ?_, ?_, htrim, ?_, goLen_ascii,
    fun k description hk => pricePoints_two_decimals env k hk description⟩
  · rw [score_formula env r d t hd ht, hsum]
    generalize ((r.Items.filter (fun item => decide (descriptionCounts item))).map
      (pricePoints env)).sum = x
    generalize countAlphanNumericCharacters env r.Retailer + totalBonus env r.Total
      + 5 * ((r.Items.length / 2 : Nat) : Int) = a
    congr 1
    unfold wrap64
    omega
  · intro hfit
    rw [hsum]
    congr 2
    apply List.map_congr_left
    intro item hi
    obtain ⟨hmem, hc⟩ := List.mem_filter.mp hi
    exact pricePoints_eq_priceCeil env item (hfit item hmem (of_decide_eq_true hc))
  · intro item h
    apply hno
    unfold descriptionCounts
    rcases h with h | h
    · exact fun hh => hh.1 h
    · exact fun hh => h hh.2
  · intro item h
    apply hno
    unfold descriptionCounts
    rw [trimSpace_of_isBlank _ h]
    exact fun hh => hh.1 rfl
  · intro price
    exact htrim ⟨"123", price⟩ " " " " (by decide) (by decide)

/-- Witness of C12: in the receipt of `TestCalculateReceiptPoint` in its final
state the three items with descriptions of trimmed length 3 add 1 each. -/
theorem description_rule_witness :
    pointsByDescription sampleEnv fullTestReceipt.Items = 3
    ∧ itemPoints sampleEnv ⟨"abc", float64OfDecimal (649 / 100)⟩ = 2 :=
  ⟨((description_rule sampleEnv fullTestReceipt ⟨1999, 1, 21, 0, 0⟩ ⟨0, 1, 1, 14, 1⟩
      (by decide) (by decide)).2.1).trans (by decide!), by decide!⟩

/-! ## C13: rule 1, the letters of the retailer -/

/-- C13: `countAlphanNumericCharacters` is the number of characters that are
letters (as an `int64`, and exactly so for a string of fewer than `2 ^ 63`
characters, as every Go string is); among the ASCII characters the letters
are `A` to `Z` and `a` to `z`, so digits, spaces, punctuation, the hyphen and
the ampersand add nothing.  A receipt with no items, no bonus from the total,
an even day and a time outside the window scores the count of its retailer:
12 for `TestRetailer`, 0 for the empty retailer. -/
theorem retailer_letter_count (env : GoEnv) :
    (∀ s : String,
      countAlphanNumericCharacters env s = wrap64 (s.data.countP (isLetter env) : Nat))
    ∧ (∀ s : String, (s.length : Int) < 2 ^ 63 →
        countAlphanNumericCharacters env s = (s.data.countP (isLetter env) : Nat))
    ∧ (∀ c : Char, c.toNat < 128 →
        (isLetter env c = true
          ↔ ('A'.toNat ≤ c.toNat ∧ c.toNat ≤ 'Z'.toNat)
            ∨ ('a'.toNat ≤ c.toNat ∧ c.toNat ≤ 'z'.toNat)))
    ∧ (isLetter env '7' = false ∧ isLetter env ' ' = false ∧ isLetter env '.' = false
        ∧ isLetter env '-' = false ∧ isLetter env '&' = false)
    ∧ (∀ (r : Receipt) (d t : GoTime), r.Items = [] → totalBonus env r.Total = 0 →
        parseDate r.PurchaseDate = some d → d.Day % 2 = 0 →
        parseTime r.PurchaseTime = some t → (t.After startTime && t.Before endTime) = false →
        calculatePointsFromReceipt env r
          = .ok (countAlphanNumericCharacters env r.Retailer))
    ∧ countAlphanNumericCharacters env "TestRetailer" = 12
    ∧ countAlphanNumericCharacters env "" = 0 := by
  refine ⟨countAlphanNumericCharacters_eq env, ?_, isLetter_ascii env,
    ⟨rfl, rfl, rfl, rfl, rfl⟩, ?_, count_TestRetailer env, rfl⟩
  · intro s hs
    rw [countAlphanNumericCharacters_eq]
    have hle : s.data.countP (isLetter env) ≤ s.length := List.countP_le_length _
    exact wrap64_of_inInt64 ⟨by omega, by omega⟩
  · intro r d t hi hb hd hday ht hw
    rw [score_formula env r d t hd ht, hb, hi]
    have h1 : dayBonus d = 0 := by
      unfold dayBonus GoTime.Day at *
      rw [if_neg (by omega)]
    have h2 : timeBonus t = 0 := by
      unfold timeBonus
      rw [hw]
      rfl
    have h3 : pointsByDescription env [] = 0 := rfl
    rw [h1, h2, h3]
    simp only [List.length_nil, Nat.zero_div, Nat.cast_zero, mul_zero, add_zero]
    exact congrArg Except.ok (wrap64_of_inInt64 (countAlphanNumericCharacters_inInt64 env _))

/-! ## C14: rule 4, the pairs of items -/

/-- C14: in the score of a receipt whose date and time parse the items count
for `5 * floor(len(items) / 2)`.  Appending two items whose descriptions are
not counted by rule 5 adds 5 to the score (in `int64`), appending one to an
even number of items changes nothing; the product `int64(len / 2) * 5` does
not wrap for a list of fewer than `2 ^ 61` items, as every Go slice is. -/
theorem item_pairs_rule (env : GoEnv) (r : Receipt) (a b : Item)
    (ha : ¬ descriptionCounts a) (hb : ¬ descriptionCounts b) :
    (∀ d t : GoTime, parseDate r.PurchaseDate = some d → parseTime r.PurchaseTime = some t →
      calculatePointsFromReceipt env r
        = .ok (wrap64 (countAlphanNumericCharacters env r.Retailer + totalBonus env r.Total
            + 5 * ((r.Items.length / 2 : Nat) : Int) + pointsByDescription env r.Items
            + dayBonus d + timeBonus t)))
    ∧ calculatePointsFromReceipt env { r with Items := r.Items ++ [a, b] }
        = (calculatePointsFromReceipt env r).map (fun points => add64 points 5)
    ∧ (r.Items.length % 2 = 0 →
        calculatePointsFromReceipt env { r with Items := r.Items ++ [a] }
          = calculatePointsFromReceipt env r)
    ∧ (r.Items.length < 2 ^ 61 →
        mul64 ((r.Items.length / 2 : Nat) : Int) 5 = 5 * ((r.Items.length / 2 : Nat) : Int)) := by
  have hab : pointsByDescription env (r.Items ++ [a, b]) = pointsByDescription env r.Items := by
    have : r.Items ++ [a, b] = (r.Items ++ [a]) ++ [b] := by simp
    rw [this, pointsByDescription_append env _ b hb, pointsByDescription_append env _ a ha]
  refine ⟨fun d t hd ht => score_formula env r d t hd ht, ?_, ?_, ?_⟩
  · rcases score_cases env r with ⟨hd, he⟩ | ⟨⟨d, hd⟩, ht, he⟩ | ⟨d, t, hd, ht, hs⟩
    · rw [he, calculatePointsFromReceipt_eq]
      simp only [hd]
      rfl
    · rw [he, calculatePointsFromReceipt_eq]
      simp only [hd, ht]
      rfl
    · rw [hs, score_formula env { r with Items := r.Items ++ [a, b] } d t hd ht]
      simp only [hab, List.length_append, List.length_cons, List.length_nil, Except.map, add64]
      generalize countAlphanNumericCharacters env r.Retailer = c
      generalize totalBonus env r.Total = tb
      generalize pointsByDescription env r.Items = p
      generalize dayBonus d = db
      generalize timeBonus t = tm
      congr 1
      unfold wrap64
      omega
  · intro heven
    rcases score_cases env r with ⟨hd, he⟩ | ⟨⟨d, hd⟩, ht, he⟩ | ⟨d, t, hd, ht, hs⟩
    · rw [he, calculatePointsFromReceipt_eq]
      simp only [hd]
    · rw [he, calculatePointsFromReceipt_eq]
      simp only [hd, ht]
    · rw [hs, score_formula env { r with Items := r.Items ++ [a] } d t hd ht]
      simp only [pointsByDescription_append env _ a ha, List.length_append, List.length_cons,
        List.length_nil]
      have : (r.Items.length + (0 + 1)) / 2 = r.Items.length / 2 := by omega
      rw [this]
  · intro hlen
    unfold mul64
    rw [wrap64_of_inInt64 ⟨by omega, by omega⟩]
    ring

/-- Witness of C14: the five items of `TestCalculateReceiptPoint`, none of
them counted by rule 5, earn 10: two more items raise the score of a receipt
of three from 92 to 97. -/
theorem item_pairs_rule_witness :
    calculatePointsFromReceipt sampleEnv
        { testReceipt with Total := 12, Items := [⟨" ", 1⟩, ⟨"", 1⟩, ⟨"", 1⟩] } = .ok 92
    ∧ calculatePointsFromReceipt sampleEnv
        { testReceipt with
          Total := 12, Items := [⟨" ", 1⟩, ⟨"", 1⟩, ⟨"", 1⟩] ++ [⟨"", 1⟩, ⟨"", 1⟩] }
        = .ok 97 :=
  ⟨by decide!,
    ((item_pairs_rule sampleEnv
      { testReceipt with Total := 12, Items := [⟨" ", 1⟩, ⟨"", 1⟩, ⟨"", 1⟩] } ⟨"", 1⟩ ⟨"", 1⟩
      (by decide) (by decide)).2.1).trans (by decide!)⟩

/-! ## C15: rule 6, the odd days -/

/-- C15: of two receipts that differ in the purchase date only, both dates
parsing, the one with the odd day scores 6 more (in `int64`) than the one with
the even day, and with days of the same parity they score the same; when the
time does not parse both fail alike. -/
theorem odd_day_rule (env : GoEnv) (r : Receipt) (date₁ date₂ : String) (d₁ d₂ : GoTime)
    (h₁ : parseDate date₁ = some d₁) (h₂ : parseDate date₂ = some d₂) :
    (d₁.Day % 2 = 1 → d₂.Day % 2 = 0 →
      calculatePointsFromReceipt env { r with PurchaseDate := date₁ }
        = (calculatePointsFromReceipt env { r with PurchaseDate := date₂ }).map
            (fun points => add64 points 6))
    ∧ (d₁.Day % 2 = d₂.Day % 2 →
      calculatePointsFromReceipt env { r with PurchaseDate := date₁ }
        = calculatePointsFromReceipt env { r with PurchaseDate := date₂ }) := by
  cases ht : parseTime r.PurchaseTime with
  | none =>
    have e : ∀ (date : String) (d : GoTime), parseDate date = some d →
        calculatePointsFromReceipt env { r with PurchaseDate := date }
          = .error "invalid time format" := by
      intro date d hd
      rw [calculatePointsFromReceipt_eq]
      simp only [hd, ht]
    rw [e date₁ d₁ h₁, e date₂ d₂ h₂]
    exact ⟨fun _ _ => rfl, fun _ => rfl⟩
  | some t =>
    rw [score_formula env { r with PurchaseDate := date₁ } d₁ t h₁ ht,
      score_formula env { r with PurchaseDate := date₂ } d₂ t h₂ ht]
    simp only [Except.map, add64]
    generalize countAlphanNumericCharacters env r.Retailer + totalBonus env r.Total
      + 5 * ((r.Items.length / 2 : Nat) : Int) + pointsByDescription env r.Items = a
    generalize timeBonus t = tm
    constructor
    · intro ho he
      have e₁ : dayBonus d₁ = 6 := by
        unfold dayBonus
        rw [if_pos (by omega)]
      have e₂ : dayBonus d₂ = 0 := by
        unfold dayBonus
        rw [if_neg (by omega)]
      rw [e₁, e₂]
      congr 1
      unfold wrap64
      omega
    · intro hp
      have e : dayBonus d₁ = dayBonus d₂ := by
        unfold dayBonus
        rw [hp]
      rw [e]

/-- Witness of C15: the receipt of `TestCalculateReceiptPoint` scores 106 on
1999-01-21 and 100 on 1999-01-20. -/
theorem odd_day_rule_witness :
    calculatePointsFromReceipt sampleEnv
        { fullTestReceipt with PurchaseTime := "13:22", PurchaseDate := "1999-01-20" } = .ok 100
    ∧ calculatePointsFromReceipt sampleEnv
        { fullTestReceipt with PurchaseTime := "13:22", PurchaseDate := "1999-01-21" }
        = .ok 106 :=
  ⟨by decide!,
    ((odd_day_rule sampleEnv { fullTestReceipt with PurchaseTime := "13:22" }
      "1999-01-21" "1999-01-20" ⟨1999, 1, 21, 0, 0⟩ ⟨1999, 1, 20, 0, 0⟩ (by decide)
      (by decide)).1 (by decide) (by decide)).trans (by decide!)⟩

/-! ## C16: the handler of `POST /receipts/process` -/

theorem RouteHandler_ProcessReceipt_of_valid (rh : RouteHandler) (newUUuid : UUID)
    {r : Receipt} (h : validateReceipt r = .ok ()) :
    rh.ProcessReceipt newUUuid (.ok r)
      = (⟨⟨(rh.receiptService.receiptStore.SaveReceipt newUUuid r).1⟩⟩,
          [⟨StatusOK, .id (some newUUuid)⟩]) := by
  unfold RouteHandler.ProcessReceipt
  simp only [ProcessReceipt_of_valid rh.receiptService newUUuid h]

theorem RouteHandler_ProcessReceipt_of_invalid (rh : RouteHandler) (newUUuid : UUID)
    {r : Receipt} {reason : String} (h : validateReceipt r = .error reason) :
    rh.ProcessReceipt newUUuid (.ok r)
      = (rh, [⟨StatusInternalServerError, .message "error processing receipt"⟩,
          ⟨StatusOK, .id none⟩]) := by
  unfold RouteHandler.ProcessReceipt
  simp only [ProcessReceipt_of_invalid rh.receiptService newUUuid h]

/-- Counterexample to C16: for the receipt without items, which validation
rejects with `items can not be empty`, the handler calls `c.JSON` twice, with
status 500 and a fixed message, then with status 200 and an `id` that is
`nil`: it does not respond once with status 400 and a message. -/
theorem handler_rejects_with_500_and_goes_on :
    validateReceipt noItemsReceipt = .error "items can not be empty"
    ∧ ((⟨⟨InitDB⟩⟩ : RouteHandler).ProcessReceipt 7 (.ok noItemsReceipt)).2
        = [⟨500, .message "error processing receipt"⟩, ⟨200, .id none⟩]
    ∧ ¬ ∃ message : String,
        ((⟨⟨InitDB⟩⟩ : RouteHandler).ProcessReceipt 7 (.ok noItemsReceipt)).2
          = [⟨400, .message message⟩] := by
  have h : validateReceipt noItemsReceipt = .error "items can not be empty" := by decide!
  refine ⟨h, ?_, ?_⟩
  · rw [RouteHandler_ProcessReceipt_of_invalid _ 7 h]
    rfl
  · rintro ⟨message, hm⟩
    rw [RouteHandler_ProcessReceipt_of_invalid _ 7 h] at hm
    simp at hm

/-- C16, amended: when the service accepts the receipt the handler responds
once, with status 200 and the identifier, and the receipt is stored; when
validation fails the first response of the handler has status 500 and the
message `error processing receipt`, and nothing is stored. -/
theorem handler_submit_contract (rh : RouteHandler) (newUUuid : UUID) (r : Receipt) :
    (validateReceipt r = .ok () →
      (rh.ProcessReceipt newUUuid (.ok r)).2 = [⟨StatusOK, .id (some newUUuid)⟩]
      ∧ (rh.ProcessReceipt newUUuid (.ok r)).1.receiptService.GetReceipt newUUuid = .ok r)
    ∧ (∀ reason : String, validateReceipt r = .error reason →
      (rh.ProcessReceipt newUUuid (.ok r)).2.head?
          = some ⟨StatusInternalServerError, .message "error processing receipt"⟩
      ∧ (rh.ProcessReceipt newUUuid (.ok r)).1.receiptService.receiptStore.receiptStoreMap
          = rh.receiptService.receiptStore.receiptStoreMap) := by
  constructor
  · intro h
    rw [RouteHandler_ProcessReceipt_of_valid rh newUUuid h]
    refine ⟨rfl, ?_⟩
    simp [ReceiptService.GetReceipt, DBHandler.ReadReceipt, DBHandler.SaveReceipt]
  · intro reason h
    rw [RouteHandler_ProcessReceipt_of_invalid rh newUUuid h]
    exact ⟨rfl, rfl⟩

/-- The handler on the receipt of `TestProcessReceiptService`: one response,
with status 200 and the identifier. -/
theorem handler_accepts_example :
    ((⟨⟨InitDB⟩⟩ : RouteHandler).ProcessReceipt 7 (.ok validReceipt)).2
      = [⟨200, .id (some 7)⟩] := by
  rw [RouteHandler_ProcessReceipt_of_valid _ 7 (by decide!)]
  rfl

/-! ## C17: the two rules on the total together -/

/-- C17: whenever the test of rule 2 holds the test of rule 3 holds, in every
environment and for every total; so the two rules add 0, 25 or 75 together,
never 50 alone, and the score of a receipt whose date and time parse has one
of these three as the part of the total. -/
theorem round_dollar_implies_quarter (env : GoEnv) (total : Float64) :
    ((floatToInt64 env total ≠ 0 ∧ int64ToFloat (floatToInt64 env total) = total) →
      (floatToInt64 env total ≠ 0 ∧ mathMod total (1 / 4) = 0))
    ∧ (totalBonus env total = 0 ∨ totalBonus env total = 25 ∨ totalBonus env total = 75)
    ∧ (∀ points : Int, totalRules env total points = points
        ∨ totalRules env total points = add64 points 25
        ∨ totalRules env total points = add64 (add64 points 50) 25)
    ∧ ∀ (r : Receipt) (d t : GoTime), r.Total = total → parseDate r.PurchaseDate = some d →
        parseTime r.PurchaseTime = some t →
        ∃ bonus : Int, (bonus = 0 ∨ bonus = 25 ∨ bonus = 75)
          ∧ calculatePointsFromReceipt env r
            = .ok (wrap64 (countAlphanNumericCharacters env r.Retailer + bonus
                + 5 * ((r.Items.length / 2 : Nat) : Int) + pointsByDescription env r.Items
                + dayBonus d + timeBonus t)) := by
  have himp : (floatToInt64 env total ≠ 0 ∧ int64ToFloat (floatToInt64 env total) = total) →
      (floatToInt64 env total ≠ 0 ∧ mathMod total (1 / 4) = 0) := by
    intro h
    obtain ⟨_, n, hn⟩ := round_dollar_test_sound env total h
    refine ⟨h.1, (mathMod_quarter_eq_zero_iff total).mpr ⟨4 * n, ?_⟩⟩
    rw [hn]
    push_cast
    ring
  have hb : totalBonus env total = 0 ∨ totalBonus env total = 25 ∨ totalBonus env total = 75 := by
    unfold totalBonus
    by_cases h2 : floatToInt64 env total ≠ 0 ∧ int64ToFloat (floatToInt64 env total) = total
    · rw [if_pos h2, if_pos (himp h2)]
      right; right; rfl
    · rw [if_neg h2]
      split_ifs
      · right; left; rfl
      · left; rfl
  refine ⟨himp, hb, ?_, ?_⟩
  · intro points
    unfold totalRules
    simp only
    by_cases h2 : floatToInt64 env total ≠ 0 ∧ int64ToFloat (floatToInt64 env total) = total
    · rw [if_pos h2, if_pos (himp h2)]
      right; right; rfl
    · rw [if_neg h2]
      split_ifs
      · right; left; rfl
      · left; rfl
  · intro r d t hr hd ht
    exact ⟨totalBonus env total, hb, by rw [score_formula env r d t hd ht, hr]⟩

/-! ## C18: the store only grows -/

/-- C18: when `SaveReceipt` draws an identifier that is not yet a key, it
returns that identifier, the receipt read under a key present before is the
one read before, the new identifier reads as the saved receipt, no key is
removed and no other entry changes.  `ReadReceipt` has the store as an
argument only: it returns a result and no store. -/
theorem stored_receipts_read_only (db : DBHandler) (id newUUuid : UUID) (old r : Receipt)
    (hold : db.receiptStoreMap id = some old) (hfresh : db.receiptStoreMap newUUuid = none) :
    (db.SaveReceipt newUUuid r).2 = .ok newUUuid
    ∧ db.ReadReceipt id = .ok old
    ∧ (db.SaveReceipt newUUuid r).1.ReadReceipt id = .ok old
    ∧ (db.SaveReceipt newUUuid r).1.ReadReceipt newUUuid = .ok r
    ∧ (∀ k, db.receiptStoreMap k ≠ none →
        (db.SaveReceipt newUUuid r).1.receiptStoreMap k ≠ none)
    ∧ ∀ k, k ≠ newUUuid →
        (db.SaveReceipt newUUuid r).1.receiptStoreMap k = db.receiptStoreMap k := by
  have hne : id ≠ newUUuid := by
    rintro rfl
    rw [hfresh] at hold
    cases hold
  refine ⟨rfl, ?_, ?_, ?_, ?_, ?_⟩
  · simp only [DBHandler.ReadReceipt, hold]
  · simp only [DBHandler.ReadReceipt, DBHandler.SaveReceipt, if_neg hne, hold]
  · simp only [DBHandler.ReadReceipt, DBHandler.SaveReceipt, if_true]
  · intro k hk
    simp only [DBHandler.SaveReceipt]
    split_ifs
    · exact Option.some_ne_none _
    · exact hk
  · intro k hk
    simp only [DBHandler.SaveReceipt, if_neg hk]

/-- Witness of C18: a second receipt saved under the identifier 2 leaves the
one saved under 1 in place. -/
theorem stored_receipts_read_only_witness :
    (InitDB.SaveReceipt 1 validReceipt).1.receiptStoreMap 1 = some validReceipt
    ∧ (InitDB.SaveReceipt 1 validReceipt).1.receiptStoreMap 2 = none
    ∧ (((InitDB.SaveReceipt 1 validReceipt).1.SaveReceipt 2 fullTestReceipt).1.ReadReceipt 1
        = .ok validReceipt) :=
  ⟨by decide, by decide,
    (stored_receipts_read_only (InitDB.SaveReceipt 1 validReceipt).1 1 2 validReceipt
      fullTestReceipt (by decide) (by decide)).2.2.1⟩

/-! ## C19: non-negative prices -/

/-- C19, at an input on which the code departs from it: the two prices of
`hugePriceReceipt` are `float64` values and not negative, validation accepts
the receipt, and in every environment its score is negative: each item earns
5e18, and the sum of the two in `int` wraps around. -/
theorem nonneg_prices_score_wraps_negative :
    (∀ item ∈ hugePriceReceipt.Items, 0 ≤ item.Price ∧ IsFloat64 item.Price)
    ∧ validateReceipt hugePriceReceipt = .ok ()
    ∧ (∀ env : GoEnv,
        calculatePointsFromReceipt env hugePriceReceipt = .ok (-8446744073709551611))
    ∧ ¬ ∃ env : GoEnv, ∀ points : Int,
        calculatePointsFromReceipt env hugePriceReceipt = .ok points → 0 ≤ points := by
  refine ⟨by decide!, by decide!, fun env => (hugePriceReceipt_score env).2, ?_⟩
  rintro ⟨env, h⟩
  have := h _ (hugePriceReceipt_score env).2
  omega

/-! ## C20: the order of the items -/

/-- Two steps of the loop over the items can be exchanged. -/
theorem descriptionStep_comm (env : GoEnv) (points : Int) (a b : Item) :
    descriptionStep env (descriptionStep env points a) b
      = descriptionStep env (descriptionStep env points b) a := by
  unfold descriptionStep
  simp only
  split_ifs
  · unfold add64 wrap64
    omega
  · rfl
  · rfl
  · rfl

theorem pointsByDescription_perm (env : GoEnv) {items₁ items₂ : List Item}
    (h : items₁.Perm items₂) :
    pointsByDescription env items₁ = pointsByDescription env items₂ :=
  h.foldl_eq' (fun a _ b _ points => descriptionStep_comm env points a b) 0

/-- C20: two receipts that agree on the retailer, the date, the time and the
total, and whose items are permutations of each other, get the same result
from `calculatePointsFromReceipt`: the same points or the same error. -/
theorem score_perm_invariant (env : GoEnv) (r : Receipt) (items₁ items₂ : List Item)
    (h : items₁.Perm items₂) :
    calculatePointsFromReceipt env { r with Items := items₁ }
      = calculatePointsFromReceipt env { r with Items := items₂ } := by
  rw [calculatePointsFromReceipt_eq, calculatePointsFromReceipt_eq]
  simp only [pointsBeforeDate, h.length_eq, pointsByDescription_perm env h]

/-- Witness of C20: the items of the tests' receipt in reverse order. -/
theorem score_perm_invariant_witness :
    calculatePointsFromReceipt sampleEnv
        { fullTestReceipt with Items := fullTestReceipt.Items.reverse } = .ok 116 :=
  (score_perm_invariant sampleEnv fullTestReceipt fullTestReceipt.Items.reverse
      fullTestReceipt.Items (List.reverse_perm _)).trans (by decide!)

end ReceiptProcessor
